import Mathlib

/-!
# BlueprintJson wrapper

A shallow embedding of `BlueprintJsonWrapper.h` / `BlueprintJsonWrapper.cpp`: the three
wrapper types `UJsonValue`, `UJsonObject` and `FLightJsonObject` over the engine's JSON
document model.

Modelling conventions

* A `TSharedPtr<T>` is an `Option`: `none` is the null pointer.
* `FJsonObject` is the only mutable, shared node of a JSON tree. Objects live in a `Heap`
  and a `TSharedPtr<FJsonObject>` is an optional address into it, so two wrappers of the
  same underlying object alias each other.
* `FJsonValue` nodes are never modified after construction, so a shared pointer to a
  value is modelled by the value itself.
* The `UObject` wrappers are never modified after the factory that builds them returns,
  so a wrapper reference is modelled by the wrapper's content.
* Dereferencing a null pointer and reading an uninitialised local are faults.
* `UE_LOG` calls have no effect on the data and are left out.

The engine types `FJsonValue`, `FJsonObject`, `TMap`, `TArray`, `EJson` and the engine
structs belong to the engine, not to the plugin, and their sources are not part of the
repository. The definitions that stand for them are marked `Modelled from the spec` and
restate the part of their behaviour that the plugin calls.
-/

namespace BlueprintJson

/-! ## Engine types -/

/-- Modelled from the spec: the engine string type `FString`, a string key or value. -/
abbrev FString := String

/-- Modelled from the spec: the engine enum `EJson` (`Serialization/JsonTypes.h`), the
type tag of a JSON value, with the seven enumerators the plugin names. -/
inductive EJson where
  | None
  | Null
  | String
  | Number
  | Boolean
  | Array
  | Object
  deriving DecidableEq, Repr

/-- The enum `EJsonType` of `BlueprintJsonWrapper.h`, in declaration order. -/
inductive EJsonType where
  | Null
  | String
  | Number
  | Boolean
  | Array
  | Object
  deriving DecidableEq, Repr

/-- A C++ `double`, by its exact value: a finite double is the rational it denotes, and
the three non-finite classes are kept apart. Signed zeros are not distinguished. -/
inductive Double where
  | finite (q : ℚ)
  | posInf
  | negInf
  | nan
  deriving DecidableEq

/-- The conversion `static_cast<double>(i)` of a 32-bit integer, which is exact. -/
def Double.ofInt (i : Int) : Double := Double.finite (i : ℚ)

/-- The comparison `d != 0.0`. -/
def Double.isNonZero : Double → Bool
  | Double.finite q => decide (q ≠ 0)
  | _ => true

/-- Smallest `int32`. -/
def INT32_MIN : Int := -2147483648

/-- Largest `int32`. -/
def INT32_MAX : Int := 2147483647

/-- Address of an `FJsonObject` in the heap. -/
abbrev ObjAddr := Nat

/-- Modelled from the spec: the engine's JSON value (`Dom/JsonValue.h`), one of null,
string, number, boolean, array or object, by the classes `FJsonValueNull`,
`FJsonValueString`, `FJsonValueNumber`, `FJsonValueBoolean`, `FJsonValueArray` and
`FJsonValueObject`. An array holds shared pointers to values, an object value holds a
shared pointer to an `FJsonObject`; both kinds of pointer may be null. -/
inductive FJsonValue where
  | Null
  | String (Value : FString)
  | Number (Value : Double)
  | Boolean (Value : Bool)
  | Array (Value : List (Option FJsonValue))
  | Object (Value : Option ObjAddr)

/-- Modelled from the spec: the engine's public member `FJsonValue::Type`, set by each
value class's constructor. -/
def FJsonValue.Type : FJsonValue → EJson
  | FJsonValue.Null => EJson.Null
  | FJsonValue.String _ => EJson.String
  | FJsonValue.Number _ => EJson.Number
  | FJsonValue.Boolean _ => EJson.Boolean
  | FJsonValue.Array _ => EJson.Array
  | FJsonValue.Object _ => EJson.Object

/-- Modelled from the spec: the text conversions of the engine's core library that the
JSON value classes call. Their formats are outside the plugin, so they are parameters
of the model. -/
structure CoreLib where
  /-- The test `FString::IsNumeric`. -/
  IsNumeric : FString → Bool
  /-- The parser `FCString::Atod`. -/
  Atod : FString → Double
  /-- The conversion `FString::ToBool`. -/
  ToBool : FString → Bool
  /-- The formatter `FString::SanitizeFloat`. -/
  SanitizeFloat : Double → FString

/-- A core library whose conversions are constant, for closed examples. -/
def CoreLib.trivial : CoreLib :=
  { IsNumeric := fun _ => false
    Atod := fun _ => Double.finite 0
    ToBool := fun _ => false
    SanitizeFloat := fun _ => "" }

/-- Modelled from the spec: the engine's `FJsonValue::IsNull`, true when the tag is
`Null` or `None`. -/
def FJsonValue.IsNull (v : FJsonValue) : Bool :=
  decide (v.Type = EJson.Null) || decide (v.Type = EJson.None)

/-- Modelled from the spec: the engine's virtual `FJsonValue::TryGetString`. A string
gives itself, a number its text, a boolean `true` or `false`; `none` is the `false`
return, which leaves the out-parameter untouched. -/
def FJsonValue.TryGetString (L : CoreLib) : FJsonValue → Option FString
  | FJsonValue.String s => some s
  | FJsonValue.Number d => some (L.SanitizeFloat d)
  | FJsonValue.Boolean b => some (if b then "true" else "false")
  | _ => none

/-- Modelled from the spec: the engine's virtual `FJsonValue::TryGetNumber(double&)`. A
number gives itself, a boolean 1 or 0, a numeric string its parsed value. -/
def FJsonValue.TryGetNumber (L : CoreLib) : FJsonValue → Option Double
  | FJsonValue.Number d => some d
  | FJsonValue.Boolean b => some (Double.finite (if b then 1 else 0))
  | FJsonValue.String s => if L.IsNumeric s then some (L.Atod s) else none
  | _ => none

/-- Modelled from the spec: rounding half away from zero, the conversion the engine
applies to an in-range double before storing it in an integer (`(int32)(Double + 0.5)`
for non-negative values, `(int32)(Double - 0.5)` otherwise). The sum is taken exactly. -/
def roundHalfFromZero (q : ℚ) : Int :=
  if 0 ≤ q then ⌊q + 1 / 2⌋ else ⌈q - 1 / 2⌉

/-- Modelled from the spec: the engine's `FJsonValue::TryGetNumber(int32&)`. It succeeds
when the value yields a double within `[INT32_MIN, INT32_MAX]`, and then rounds it; a
non-finite double fails the range test. -/
def FJsonValue.TryGetNumber_int32 (L : CoreLib) (v : FJsonValue) : Option Int :=
  match v.TryGetNumber L with
  | some (Double.finite q) =>
    if (INT32_MIN : ℚ) ≤ q ∧ q ≤ (INT32_MAX : ℚ) then some (roundHalfFromZero q) else none
  | _ => none

/-- Modelled from the spec: the engine's virtual `FJsonValue::TryGetBool`. A boolean
gives itself, a number whether it is non-zero, a string its reading as a boolean. -/
def FJsonValue.TryGetBool (L : CoreLib) : FJsonValue → Option Bool
  | FJsonValue.Boolean b => some b
  | FJsonValue.Number d => some d.isNonZero
  | FJsonValue.String s => some (L.ToBool s)
  | _ => none

/-- Modelled from the spec: the engine's `FJsonValue::AsNumber`, the number read from
the value, `0.0` when none can be read. -/
def FJsonValue.AsNumber (L : CoreLib) (v : FJsonValue) : Double :=
  (v.TryGetNumber L).getD (Double.finite 0)

/-- Modelled from the spec: the engine's `FJsonValue::AsArray`, the elements of an
array value, the empty array otherwise. -/
def FJsonValue.AsArray : FJsonValue → List (Option FJsonValue)
  | FJsonValue.Array xs => xs
  | _ => []

/-- Modelled from the spec: the engine's `FJsonValue::AsObject`, the object pointer of
an object value, null otherwise. -/
def FJsonValue.AsObject : FJsonValue → Option ObjAddr
  | FJsonValue.Object p => p
  | _ => none

/-- Modelled from the spec: the engine's `TMap::Find`, on a map kept as the list of its
entries in insertion order. -/
def TMap.Find {β : Type} : List (FString × β) → FString → Option β
  | [], _ => none
  | (k, v) :: m, key => if k = key then some v else TMap.Find m key

/-- Modelled from the spec: the engine's `TMap::Add`, which replaces the entry of an
existing key in place and appends a new entry otherwise. -/
def TMap.Add {β : Type} : List (FString × β) → FString → β → List (FString × β)
  | [], key, val => [(key, val)]
  | (k, v) :: m, key, val =>
    if k = key then (key, val) :: m else (k, v) :: TMap.Add m key val

/-- Modelled from the spec: the engine's `FJsonObject` (`Dom/JsonObject.h`), by its
public member `Values`, a map from field name to shared value pointer. -/
structure FJsonObject where
  Values : List (FString × Option FJsonValue)

/-- Modelled from the spec: the object built by `MakeShared<FJsonObject>()`, without
fields. -/
def FJsonObject.empty : FJsonObject := { Values := [] }

/-- Modelled from the spec: the engine's `FJsonObject::TryGetField`, the stored pointer
when the field exists and the pointer is valid, null otherwise. -/
def FJsonObject.TryGetField (self : FJsonObject) (FieldName : FString) :
    Option FJsonValue :=
  match TMap.Find self.Values FieldName with
  | some (some v) => some v
  | _ => none

/-- Modelled from the spec: the engine's `FJsonObject::HasField`, whether the field
exists with a valid pointer. -/
def FJsonObject.HasField (self : FJsonObject) (FieldName : FString) : Bool :=
  (self.TryGetField FieldName).isSome

/-- Modelled from the spec: the engine's `FJsonObject::HasTypedField<JsonType>`,
whether the field exists with a value of that type. -/
def FJsonObject.HasTypedField (self : FJsonObject) (JsonType : EJson)
    (FieldName : FString) : Bool :=
  match self.TryGetField FieldName with
  | some v => decide (v.Type = JsonType)
  | none => false

/-- Modelled from the spec: the engine's `FJsonObject::SetField`, `Values.Add`. -/
def FJsonObject.SetField (self : FJsonObject) (FieldName : FString)
    (Value : Option FJsonValue) : FJsonObject :=
  { Values := TMap.Add self.Values FieldName Value }

/-- Modelled from the spec: the engine's `FJsonObject::SetNumberField`, which stores a
new `FJsonValueNumber`. -/
def FJsonObject.SetNumberField (self : FJsonObject) (FieldName : FString)
    (Number : Double) : FJsonObject :=
  self.SetField FieldName (some (FJsonValue.Number Number))

/-- Modelled from the spec: the engine's `FJsonObject::SetStringField`, which stores a
new `FJsonValueString`. -/
def FJsonObject.SetStringField (self : FJsonObject) (FieldName : FString)
    (StringValue : FString) : FJsonObject :=
  self.SetField FieldName (some (FJsonValue.String StringValue))

/-- Modelled from the spec: the engine's `FJsonObject::SetBoolField`, which stores a
new `FJsonValueBoolean`. -/
def FJsonObject.SetBoolField (self : FJsonObject) (FieldName : FString)
    (InValue : Bool) : FJsonObject :=
  self.SetField FieldName (some (FJsonValue.Boolean InValue))

/-- Modelled from the spec: the engine's `FJsonObject::SetArrayField`, which stores a
new `FJsonValueArray`. -/
def FJsonObject.SetArrayField (self : FJsonObject) (FieldName : FString)
    (Array : List (Option FJsonValue)) : FJsonObject :=
  self.SetField FieldName (some (FJsonValue.Array Array))

/-- Modelled from the spec: the engine's `FJsonObject::SetObjectField`, which stores an
object value for a valid pointer and a null value for a null pointer. -/
def FJsonObject.SetObjectField (self : FJsonObject) (FieldName : FString)
    (JsonObject : Option ObjAddr) : FJsonObject :=
  match JsonObject with
  | some a => self.SetField FieldName (some (FJsonValue.Object (some a)))
  | none => self.SetField FieldName (some FJsonValue.Null)

/-! ## Heap of shared objects -/

/-- The `FJsonObject`s alive behind shared pointers; an address is an index. -/
structure Heap where
  Objects : List FJsonObject

/-- The object an address points to. -/
def Heap.get (h : Heap) (a : ObjAddr) : Option FJsonObject := h.Objects[a]?

/-- Overwrites the object at an address. -/
def Heap.set (h : Heap) (a : ObjAddr) (o : FJsonObject) : Heap :=
  { Objects := h.Objects.set a o }

/-- The call `MakeShared<FJsonObject>(...)`: a fresh address holding the object. -/
def Heap.MakeShared (h : Heap) (o : FJsonObject) : ObjAddr × Heap :=
  (h.Objects.length, { Objects := h.Objects ++ [o] })

/-- What can go wrong in the C++ code below. -/
inductive Fault where
  | nullDereference
  | uninitializedRead
  deriving DecidableEq, Repr

/-- Dereference of a `TSharedPtr<FJsonObject>`. -/
def Heap.deref (h : Heap) (p : Option ObjAddr) : Except Fault FJsonObject :=
  match p with
  | none => Except.error Fault.nullDereference
  | some a =>
    match h.get a with
    | some o => Except.ok o
    | none => Except.error Fault.nullDereference

/-- The statement `p->f(...)` for a mutating `f`: the object behind `p` is replaced by
its updated state. -/
def Heap.update (h : Heap) (p : Option ObjAddr) (f : FJsonObject → FJsonObject) :
    Except Fault Heap :=
  match p with
  | none => Except.error Fault.nullDereference
  | some a =>
    match h.get a with
    | some o => Except.ok (h.set a (f o))
    | none => Except.error Fault.nullDereference

/-! ## Engine structs passed to the encoders -/

/-- Modelled from the spec: the engine struct `FVector`, by the components the encoder
reads; a component is given by the double it converts to. -/
structure FVector where
  X : Double
  Y : Double
  Z : Double

/-- Modelled from the spec: the engine struct `FVector2D`. -/
structure FVector2D where
  X : Double
  Y : Double

/-- Modelled from the spec: the engine struct `FRotator`. -/
structure FRotator where
  Pitch : Double
  Yaw : Double
  Roll : Double

/-- Modelled from the spec: the engine struct `FLinearColor`. -/
structure FLinearColor where
  R : Double
  G : Double
  B : Double
  A : Double

/-- Modelled from the spec: the engine struct `FColor`, with `uint8` components. -/
structure FColor where
  R : Nat
  G : Nat
  B : Nat
  A : Nat

/-- Modelled from the spec: the engine struct `FQuat`. -/
structure FQuat where
  X : Double
  Y : Double
  Z : Double
  W : Double

/-- Class `UJsonValue`: the private member `Value`. -/
structure UJsonValue where
  Value : Option FJsonValue

/-- Class `UJsonObject`: the private member `Object`. -/
structure UJsonObject where
  Object : Option ObjAddr
  deriving DecidableEq

/-- Struct `FLightJsonObject`: the private member `Object`. -/
structure FLightJsonObject where
  Object : Option ObjAddr
  deriving DecidableEq

/-- The default-constructed light object, written `{}` in the source. -/
def FLightJsonObject.default : FLightJsonObject := { Object := none }

/-- Struct `FJsonObjectField`: a field name and a pointer to a value wrapper. -/
structure FJsonObjectField where
  FieldName : FString
  FieldValue : Option UJsonValue

/-- An engine object behind a `UObject*`, by its dynamic class as seen by `Cast<>`:
a `UJsonValue`, a `UJsonObject`, or an object of any other class (kept by its name). -/
inductive UObject where
  | JsonValue (v : UJsonValue)
  | JsonObject (o : UJsonObject)
  | Other (Name : FString)

/-- The call `Cast<UJsonValue>(Value)`. -/
def UObject.CastJsonValue : Option UObject → Option UJsonValue
  | some (UObject.JsonValue v) => some v
  | _ => none

/-- The call `Cast<UJsonObject>(Value)`. -/
def UObject.CastJsonObject : Option UObject → Option UJsonObject
  | some (UObject.JsonObject o) => some o
  | _ => none

/-! ## `UJsonValue` -/

/-- `UJsonValue::GetRawValue`. -/
def UJsonValue.GetRawValue (self : UJsonValue) : Option FJsonValue := self.Value

/-- `UJsonValue::CreateFromRaw`. -/
def UJsonValue.CreateFromRaw (RawValue : Option FJsonValue) : Option UJsonValue :=
  match RawValue with
  | some v => some { Value := some v }
  | none => none

/-- `UJsonObject::GetRawObject`. -/
def UJsonObject.GetRawObject (self : UJsonObject) : Option ObjAddr := self.Object

/-- `UJsonObject::CreateFromRaw`. The object that `NewObject` default-constructs is
owned by the new wrapper alone and is released when `Object` is overwritten, so it does
not appear in the heap. -/
def UJsonObject.CreateFromRaw (RawObject : Option ObjAddr) : Option UJsonObject :=
  match RawObject with
  | none => none
  | some a => some { Object := some a }

/-- `UJsonValue::CreateJsonValue(const bool)`. -/
def UJsonValue.CreateJsonValue_bool (Value : Bool) : Option UJsonValue :=
  UJsonValue.CreateFromRaw (some (FJsonValue.Boolean Value))

/-- `UJsonValue::CreateJsonValue(UObject* const)`. -/
def UJsonValue.CreateJsonValue_UObject (Value : Option UObject) : Option UJsonValue :=
  match Value with
  | none => none
  | some _ =>
    match UObject.CastJsonValue Value with
    | some JsonValue => some JsonValue
    | none =>
      match UObject.CastJsonObject Value with
      | some JsonObject =>
        UJsonValue.CreateFromRaw (some (FJsonValue.Object JsonObject.GetRawObject))
      | none => none

/-- `UJsonValue::CreateJsonValue(const FVector&)`. -/
def UJsonValue.CreateJsonValue_FVector (h : Heap) (Value : FVector) :
    Except Fault (Option UJsonValue × Heap) := do
  let (a, h) := h.MakeShared FJsonObject.empty
  let Object : Option ObjAddr := some a
  let h ← h.update Object (fun o => o.SetNumberField "X" Value.X)
  let h ← h.update Object (fun o => o.SetNumberField "Y" Value.Y)
  let h ← h.update Object (fun o => o.SetNumberField "Z" Value.Z)
  pure (UJsonValue.CreateFromRaw (some (FJsonValue.Object Object)), h)

/-- `UJsonValue::CreateJsonValue(const FVector2D&)`. -/
def UJsonValue.CreateJsonValue_FVector2D (h : Heap) (Value : FVector2D) :
    Except Fault (Option UJsonValue × Heap) := do
  let (a, h) := h.MakeShared FJsonObject.empty
  let Object : Option ObjAddr := some a
  let h ← h.update Object (fun o => o.SetNumberField "X" Value.X)
  let h ← h.update Object (fun o => o.SetNumberField "Y" Value.Y)
  pure (UJsonValue.CreateFromRaw (some (FJsonValue.Object Object)), h)

/-- `UJsonValue::CreateJsonValue(const FRotator&)`. -/
def UJsonValue.CreateJsonValue_FRotator (h : Heap) (Value : FRotator) :
    Except Fault (Option UJsonValue × Heap) := do
  let (a, h) := h.MakeShared FJsonObject.empty
  let Object : Option ObjAddr := some a
  let h ← h.update Object (fun o => o.SetNumberField "Pitch" Value.Pitch)
  let h ← h.update Object (fun o => o.SetNumberField "Yaw" Value.Yaw)
  let h ← h.update Object (fun o => o.SetNumberField "Roll" Value.Roll)
  pure (UJsonValue.CreateFromRaw (some (FJsonValue.Object Object)), h)

/-- `UJsonValue::CreateJsonValue(const FLinearColor&)`. -/
def UJsonValue.CreateJsonValue_FLinearColor (h : Heap) (Value : FLinearColor) :
    Except Fault (Option UJsonValue × Heap) := do
  let (a, h) := h.MakeShared FJsonObject.empty
  let Object : Option ObjAddr := some a
  let h ← h.update Object (fun o => o.SetNumberField "R" Value.R)
  let h ← h.update Object (fun o => o.SetNumberField "G" Value.G)
  let h ← h.update Object (fun o => o.SetNumberField "B" Value.B)
  let h ← h.update Object (fun o => o.SetNumberField "A" Value.A)
  pure (UJsonValue.CreateFromRaw (some (FJsonValue.Object Object)), h)

/-- `UJsonValue::CreateJsonValue(const FColor&)`; each `uint8` component converts to a
double exactly. -/
def UJsonValue.CreateJsonValue_FColor (h : Heap) (Value : FColor) :
    Except Fault (Option UJsonValue × Heap) := do
  let (a, h) := h.MakeShared FJsonObject.empty
  let Object : Option ObjAddr := some a
  let h ← h.update Object (fun o => o.SetNumberField "R" (Double.ofInt Value.R))
  let h ← h.update Object (fun o => o.SetNumberField "G" (Double.ofInt Value.G))
  let h ← h.update Object (fun o => o.SetNumberField "B" (Double.ofInt Value.B))
  let h ← h.update Object (fun o => o.SetNumberField "A" (Double.ofInt Value.A))
  pure (UJsonValue.CreateFromRaw (some (FJsonValue.Object Object)), h)

/-- `UJsonValue::CreateJsonValue(const FQuat&)`. -/
def UJsonValue.CreateJsonValue_FQuat (h : Heap) (Value : FQuat) :
    Except Fault (Option UJsonValue × Heap) := do
  let (a, h) := h.MakeShared FJsonObject.empty
  let Object : Option ObjAddr := some a
  let h ← h.update Object (fun o => o.SetNumberField "W" Value.W)
  let h ← h.update Object (fun o => o.SetNumberField "X" Value.X)
  let h ← h.update Object (fun o => o.SetNumberField "Y" Value.Y)
  let h ← h.update Object (fun o => o.SetNumberField "Z" Value.Z)
  pure (UJsonValue.CreateFromRaw (some (FJsonValue.Object Object)), h)

/-- `UJsonValue::JsonTypeToString`: every enumerator has a case, so the trailing
`return TEXT("Undefined")` is reached by none. -/
def UJsonValue.JsonTypeToString : EJson → FString
  | EJson.Array => "Array"
  | EJson.Number => "Number"
  | EJson.String => "String"
  | EJson.Object => "Object"
  | EJson.None => "None"
  | EJson.Boolean => "Boolean"
  | EJson.Null => "Null"

/-- The `switch` of `UJsonValue::SwitchValueType`, as a function of `Value->Type`. -/
def UJsonValue.SwitchValueType.branch : EJson → EJsonType
  | EJson.Array => EJsonType.Array
  | EJson.Number => EJsonType.Number
  | EJson.String => EJsonType.String
  | EJson.Object => EJsonType.Object
  | EJson.Boolean => EJsonType.Boolean
  | _ => EJsonType.Null

/-- Dereference of the member `Value` of a `UJsonValue`. -/
def UJsonValue.deref (self : UJsonValue) : Except Fault FJsonValue :=
  match self.Value with
  | some v => Except.ok v
  | none => Except.error Fault.nullDereference

/-- `UJsonValue::GetType`. -/
def UJsonValue.GetType (self : UJsonValue) : Except Fault EJson :=
  self.deref.map FJsonValue.Type

/-- `UJsonValue::GetStringType`. -/
def UJsonValue.GetStringType (self : UJsonValue) : Except Fault FString :=
  self.deref.map (fun v => UJsonValue.JsonTypeToString v.Type)

/-- `UJsonValue::IsNull`. -/
def UJsonValue.IsNull (self : UJsonValue) : Except Fault Bool :=
  self.deref.map (fun v => decide (v.Type = EJson.Null))

/-- `UJsonValue::SwitchValueType`; the result is the value left in `Branches`. -/
def UJsonValue.SwitchValueType (self : UJsonValue) : Except Fault EJsonType :=
  self.deref.map (fun v => UJsonValue.SwitchValueType.branch v.Type)

/-! ## `UJsonObject` -/

/-- The constructor `UJsonObject::UJsonObject`: `Object(MakeShared<FJsonObject>())`. -/
def UJsonObject.ctor (h : Heap) : UJsonObject × Heap :=
  let r := h.MakeShared FJsonObject.empty
  ({ Object := some r.1 }, r.2)

/-- `UJsonObject::CreateJsonObject`. The object made by the constructor inside
`NewObject` is released by the assignment to `Object`; only the assigned one is kept. -/
def UJsonObject.CreateJsonObject (h : Heap) : UJsonObject × Heap :=
  let r := h.MakeShared FJsonObject.empty
  ({ Object := some r.1 }, r.2)

/-- `UJsonObject::FromLightObject`. The wrapper that `NewObject` builds first is
dropped, with its own fresh object, when the light object is empty. -/
def UJsonObject.FromLightObject (InObject : FLightJsonObject) : Option UJsonObject :=
  match InObject.Object with
  | some a => some { Object := some a }
  | none => none

/-- `UJsonObject::ToJsonValue`. -/
def UJsonObject.ToJsonValue (self : UJsonObject) : Option UJsonValue :=
  UJsonValue.CreateFromRaw (some (FJsonValue.Object self.Object))

/-- Modelled from the spec: the engine's `TArray::Empty`, which drops every element. -/
def TArray.Empty {α : Type} (_ : List α) : List α := []

/-- Modelled from the spec: the engine's `TArray::Emplace`, which appends an element. -/
def TArray.Emplace {α : Type} (xs : List α) (x : α) : List α := xs ++ [x]

/-- `UJsonObject::GetAllProperties`; the result is the content of `OutValues` after
the call. -/
def UJsonObject.GetAllProperties (h : Heap) (self : UJsonObject)
    (OutValues : List FJsonObjectField) : Except Fault (List FJsonObjectField) := do
  let Object ← h.deref self.Object
  pure (Object.Values.foldl
    (fun Out Value =>
      TArray.Emplace Out
        { FieldName := Value.1, FieldValue := UJsonValue.CreateFromRaw Value.2 })
    (TArray.Empty OutValues))

/-- `UJsonObject::GetFieldAsObjectWrapper`. -/
def UJsonObject.GetFieldAsObjectWrapper (h : Heap) (self : UJsonObject)
    (FieldName : FString) : Except Fault FLightJsonObject := do
  let Object ← h.deref self.Object
  match Object.TryGetField FieldName with
  | none => pure FLightJsonObject.default
  | some Value =>
    if Value.Type ≠ EJson.Object then pure FLightJsonObject.default
    else pure { Object := Value.AsObject }

/-- `UJsonObject::GetFieldAsString`. -/
def UJsonObject.GetFieldAsString (L : CoreLib) (h : Heap) (self : UJsonObject)
    (FieldName : FString) : Except Fault FString := do
  let Object ← h.deref self.Object
  match Object.TryGetField FieldName with
  | none => pure ""
  | some Value =>
    match Value.TryGetString L with
    | some FieldValue => pure FieldValue
    | none => pure ""

/-- `UJsonObject::GetFieldAsInteger`. The local `FieldValue` has no initialiser, so
returning it after a failed `TryGetNumber` reads an uninitialised `int32`. -/
def UJsonObject.GetFieldAsInteger (L : CoreLib) (h : Heap) (self : UJsonObject)
    (FieldName : FString) : Except Fault Int := do
  let Object ← h.deref self.Object
  match Object.TryGetField FieldName with
  | none => pure 0
  | some Value =>
    match Value.TryGetNumber_int32 L with
    | some FieldValue => pure FieldValue
    | none => Except.error Fault.uninitializedRead

/-- `UJsonObject::GetFieldAsObject`. -/
def UJsonObject.GetFieldAsObject (h : Heap) (self : UJsonObject)
    (FieldName : FString) : Except Fault (Option UJsonObject) := do
  let Object ← h.deref self.Object
  match Object.TryGetField FieldName with
  | none => pure none
  | some Value =>
    if Value.Type ≠ EJson.Object then pure none
    else pure (UJsonObject.CreateFromRaw Value.AsObject)

/-- `UJsonObject::GetFieldAsBoolean`. -/
def UJsonObject.GetFieldAsBoolean (L : CoreLib) (h : Heap) (self : UJsonObject)
    (FieldName : FString) : Except Fault Bool := do
  let Object ← h.deref self.Object
  match Object.TryGetField FieldName with
  | none => pure false
  | some Value =>
    match Value.TryGetBool L with
    | some bFieldValue => pure bFieldValue
    | none => pure false

/-- `UJsonObject::GetFieldAsValue`. -/
def UJsonObject.GetFieldAsValue (h : Heap) (self : UJsonObject)
    (FieldName : FString) : Except Fault (Option UJsonValue) := do
  let Object ← h.deref self.Object
  if !Object.HasField FieldName then pure none
  else pure (UJsonValue.CreateFromRaw (Object.TryGetField FieldName))

/-- `UJsonObject::IsFieldNull`. -/
def UJsonObject.IsFieldNull (h : Heap) (self : UJsonObject)
    (FieldName : FString) : Except Fault Bool := do
  let Object ← h.deref self.Object
  match Object.TryGetField FieldName with
  | none => pure true
  | some Value => pure Value.IsNull

/-- `UJsonObject::HasField`. -/
def UJsonObject.HasField (h : Heap) (self : UJsonObject)
    (FieldName : FString) : Except Fault Bool := do
  let Object ← h.deref self.Object
  pure (Object.HasField FieldName)

/-- `UJsonObject::SetObjectField`; the result is the heap after the call. -/
def UJsonObject.SetObjectField (h : Heap) (self : UJsonObject) (FieldName : FString)
    (JsonObject : Option UJsonObject) : Except Fault Heap :=
  match JsonObject with
  | none => pure h
  | some JsonObject =>
    h.update self.Object (fun o => o.SetObjectField FieldName JsonObject.Object)

/-- `UJsonObject::SetStringField`. -/
def UJsonObject.SetStringField (h : Heap) (self : UJsonObject) (FieldName : FString)
    (FieldValue : FString) : Except Fault Heap :=
  h.update self.Object (fun o => o.SetStringField FieldName FieldValue)

/-- `UJsonObject::SetIntegerField`; `FieldValue` is an `int32`. -/
def UJsonObject.SetIntegerField (h : Heap) (self : UJsonObject) (FieldName : FString)
    (FieldValue : Int) : Except Fault Heap :=
  h.update self.Object (fun o => o.SetNumberField FieldName (Double.ofInt FieldValue))

/-- `UJsonObject::SetBooleanField`. -/
def UJsonObject.SetBooleanField (h : Heap) (self : UJsonObject) (FieldName : FString)
    (FieldValue : Bool) : Except Fault Heap :=
  h.update self.Object (fun o => o.SetBoolField FieldName FieldValue)

/-- `UJsonObject::SetField`. -/
def UJsonObject.SetField (h : Heap) (self : UJsonObject) (FieldName : FString)
    (FieldValue : Option UJsonValue) : Except Fault Heap :=
  match FieldValue with
  | none => pure h
  | some FieldValue =>
    h.update self.Object (fun o => o.SetField FieldName FieldValue.GetRawValue)

/-- `UJsonObject::SetRawField`. -/
def UJsonObject.SetRawField (h : Heap) (self : UJsonObject) (FieldName : FString)
    (FieldValue : Option FJsonValue) : Except Fault Heap :=
  h.update self.Object (fun o => o.SetField FieldName FieldValue)

/-- `UJsonObject::SetNullField`. -/
def UJsonObject.SetNullField (h : Heap) (self : UJsonObject) (FieldName : FString) :
    Except Fault Heap :=
  h.update self.Object (fun o => o.SetField FieldName (some FJsonValue.Null))

/-- The pointer is non-null and points into the heap. -/
def Heap.owns (h : Heap) (p : Option ObjAddr) : Bool :=
  match p with
  | some a => decide (a < h.Objects.length)
  | none => false

/-- The outcome of a flat struct encoder: the call returns a non-absent value of type
Object, and the object it points to has exactly the listed fields, in this order, each
holding the listed number as a JSON Number. -/
def EncodesNumbers (r : Except Fault (Option UJsonValue × Heap))
    (fields : List (FString × Double)) : Prop :=
  ∃ (w : UJsonValue) (a : ObjAddr) (h2 : Heap),
    r = Except.ok (some w, h2) ∧
    w.GetType = Except.ok EJson.Object ∧
    w.GetRawValue = some (FJsonValue.Object (some a)) ∧
    h2.get a = some
      (FJsonObject.mk (fields.map (fun f => (f.1, some (FJsonValue.Number f.2)))))

/-- The rounding conversions of the C++ language that the plugin applies. A `float` is
given by the double of the same value, so `static_cast<float>` maps doubles to doubles;
their rounding is a parameter of the model. -/
structure CxxCast where
  /-- The conversion `static_cast<float>(d)` of a double. -/
  toFloat : Double → Double
  /-- The conversion `static_cast<double>(i)` of a 64-bit integer. -/
  ofInt64 : Int → Double

/-- Conversions without rounding, for closed examples on values that need none. -/
def CxxCast.exact : CxxCast :=
  { toFloat := fun d => d
    ofInt64 := Double.ofInt }

/-- Modelled from the spec: the engine's `FJsonValue::TryGetNumber(int64&)`. The value
must yield a double between `INT64_MIN` and `INT64_MAX` as converted to double, which
is `2^63`; it is then rounded. -/
def FJsonValue.TryGetNumber_int64 (L : CoreLib) (v : FJsonValue) : Option Int :=
  match v.TryGetNumber L with
  | some (Double.finite q) =>
    if (-9223372036854775808 : ℚ) ≤ q ∧ q ≤ (9223372036854775808 : ℚ)
    then some (roundHalfFromZero q) else none
  | _ => none

/-- Modelled from the spec: the engine's `FJsonObject::GetArrayField`, the elements of
the field's array value, the empty array when there is none. -/
def FJsonObject.GetArrayField (self : FJsonObject) (FieldName : FString) :
    List (Option FJsonValue) :=
  match self.TryGetField FieldName with
  | some v => v.AsArray
  | none => []

/-- `FLightJsonObject::GetFieldAsObjectArray`. The test `Object && ...` does not
dereference a null `Object`; `NativeObject->Type` dereferences the element pointer. -/
def FLightJsonObject.GetFieldAsObjectArray (h : Heap) (self : FLightJsonObject)
    (FieldName : FString) : Except Fault (List FLightJsonObject) :=
  match self.Object with
  | none => pure []
  | some _ => do
    let Object ← h.deref self.Object
    if Object.HasTypedField EJson.Array FieldName then
      (Object.GetArrayField FieldName).foldlM
        (fun Result NativeObject =>
          match NativeObject with
          | none => Except.error Fault.nullDereference
          | some v =>
            if v.Type = EJson.Object then
              pure (TArray.Emplace Result (FLightJsonObject.mk v.AsObject))
            else pure Result)
        []
    else pure []

/-- `FLightJsonObject::GetFieldAsFloatArray`. -/
def FLightJsonObject.GetFieldAsFloatArray (C : CxxCast) (L : CoreLib) (h : Heap)
    (self : FLightJsonObject) (FieldName : FString) : Except Fault (List Double) :=
  match self.Object with
  | none => pure []
  | some _ => do
    let Object ← h.deref self.Object
    if Object.HasTypedField EJson.Array FieldName then
      (Object.GetArrayField FieldName).foldlM
        (fun Result NativeObject =>
          match NativeObject with
          | none => Except.error Fault.nullDereference
          | some v =>
            if v.Type = EJson.Number then
              pure (TArray.Emplace Result (C.toFloat (v.AsNumber L)))
            else pure Result)
        []
    else pure []

/-- `UJsonObject::GetFieldAsFloatArray`: every element of the array is converted with
`AsNumber`, whatever its type. -/
def UJsonObject.GetFieldAsFloatArray (C : CxxCast) (L : CoreLib) (h : Heap)
    (self : UJsonObject) (FieldName : FString) : Except Fault (List Double) := do
  let Object ← h.deref self.Object
  match Object.TryGetField FieldName with
  | none => pure []
  | some Value =>
    if Value.Type ≠ EJson.Array then pure []
    else
      Value.AsArray.foldlM
        (fun FieldValue RawValue =>
          match RawValue with
          | none => Except.error Fault.nullDereference
          | some v => pure (TArray.Emplace FieldValue (C.toFloat (v.AsNumber L))))
        []

/-- `UJsonObject::GetFieldAsInteger64`. The local `FieldValue` has no initialiser, so
returning it after a failed `TryGetNumber` reads an uninitialised `int64`. -/
def UJsonObject.GetFieldAsInteger64 (L : CoreLib) (h : Heap) (self : UJsonObject)
    (FieldName : FString) : Except Fault Int := do
  let Object ← h.deref self.Object
  match Object.TryGetField FieldName with
  | none => pure 0
  | some Value =>
    match Value.TryGetNumber_int64 L with
    | some FieldValue => pure FieldValue
    | none => Except.error Fault.uninitializedRead

/-- `UJsonObject::GetFieldAsFloat`. The local `double FieldValue` has no initialiser, so
converting it after a failed `TryGetNumber` reads an uninitialised `double`. -/
def UJsonObject.GetFieldAsFloat (C : CxxCast) (L : CoreLib) (h : Heap)
    (self : UJsonObject) (FieldName : FString) : Except Fault Double := do
  let Object ← h.deref self.Object
  match Object.TryGetField FieldName with
  | none => pure (Double.finite 0)
  | some Value =>
    match Value.TryGetNumber L with
    | some FieldValue => pure (C.toFloat FieldValue)
    | none => Except.error Fault.uninitializedRead

/-- `UJsonObject::SetInteger64Field`; `FieldValue` is an `int64`. -/
def UJsonObject.SetInteger64Field (C : CxxCast) (h : Heap) (self : UJsonObject)
    (FieldName : FString) (FieldValue : Int) : Except Fault Heap :=
  h.update self.Object (fun o => o.SetNumberField FieldName (C.ofInt64 FieldValue))

/-- `UJsonObject::SetFloatField`; the `float` argument is given as the double it
converts to. -/
def UJsonObject.SetFloatField (h : Heap) (self : UJsonObject) (FieldName : FString)
    (FieldValue : Double) : Except Fault Heap :=
  h.update self.Object (fun o => o.SetNumberField FieldName FieldValue)

/-- `UJsonObject::SetUObjectField`. -/
def UJsonObject.SetUObjectField (h : Heap) (self : UJsonObject) (FieldName : FString)
    (FieldValue : Option UObject) : Except Fault Heap :=
  match UObject.CastJsonObject FieldValue with
  | some JsonObject => self.SetObjectField h FieldName (some JsonObject)
  | none =>
    match UObject.CastJsonValue FieldValue with
    | some JsonValue => self.SetField h FieldName (some JsonValue)
    | none => pure h

/-- `UJsonObject::SetArrayField`: the raw values of the non-null wrappers, in order. -/
def UJsonObject.SetArrayField (h : Heap) (self : UJsonObject) (FieldName : FString)
    (FieldValue : List (Option UJsonValue)) : Except Fault Heap :=
  h.update self.Object (fun o =>
    o.SetArrayField FieldName
      (FieldValue.foldl
        (fun Values Value =>
          match Value with
          | some w => TArray.Emplace Values w.GetRawValue
          | none => Values)
        []))

/-- Modelled from the spec: the engine's parser behind `ParseJsonInternal`
(`TJsonReaderFactory<>::Create` and `FJsonSerializer::Deserialize`). For a text it gives
whether the text was valid JSON, the pointer to the parsed root object (null when there
is none) and the heap that holds the parsed tree; it is a parameter of the model. -/
structure JsonParser where
  Deserialize : Heap → FString → Bool × Option ObjAddr × Heap

/-- `UJsonObject::ParseJsonInternal`: the success flag and the raw object. -/
def UJsonObject.ParseJsonInternal (P : JsonParser) (h : Heap) (Json : FString) :
    Bool × Option ObjAddr × Heap :=
  P.Deserialize h Json

/-- `UJsonObject::ParseJson`: the value left in `bSuccess`, the returned wrapper and the
heap after the call. -/
def UJsonObject.ParseJson (P : JsonParser) (h : Heap) (Json : FString) :
    Bool × Option UJsonObject × Heap :=
  let r := UJsonObject.ParseJsonInternal P h Json
  (r.1, UJsonObject.CreateFromRaw r.2.1, r.2.2)

/-- One call of a setter of `UJsonObject`, with its arguments. -/
inductive SetterOp where
  | SetStringField (FieldName : FString) (FieldValue : FString)
  | SetIntegerField (FieldName : FString) (FieldValue : Int)
  | SetInteger64Field (FieldName : FString) (FieldValue : Int)
  | SetFloatField (FieldName : FString) (FieldValue : Double)
  | SetBooleanField (FieldName : FString) (FieldValue : Bool)
  | SetObjectField (FieldName : FString) (JsonObject : Option UJsonObject)
  | SetField (FieldName : FString) (FieldValue : Option UJsonValue)
  | SetUObjectField (FieldName : FString) (FieldValue : Option UObject)
  | SetArrayField (FieldName : FString) (FieldValue : List (Option UJsonValue))
  | SetNullField (FieldName : FString)

/-- The setter call on the wrapper `self`. -/
def UJsonObject.applySetter (C : CxxCast) (h : Heap) (self : UJsonObject) :
    SetterOp → Except Fault Heap
  | SetterOp.SetStringField n v => self.SetStringField h n v
  | SetterOp.SetIntegerField n v => self.SetIntegerField h n v
  | SetterOp.SetInteger64Field n v => self.SetInteger64Field C h n v
  | SetterOp.SetFloatField n v => self.SetFloatField h n v
  | SetterOp.SetBooleanField n v => self.SetBooleanField h n v
  | SetterOp.SetObjectField n v => self.SetObjectField h n v
  | SetterOp.SetField n v => self.SetField h n v
  | SetterOp.SetUObjectField n v => self.SetUObjectField h n v
  | SetterOp.SetArrayField n v => self.SetArrayField h n v
  | SetterOp.SetNullField n => self.SetNullField h n

/-- A sequence of setter calls on the wrapper `self`, in order. -/
def UJsonObject.applySetters (C : CxxCast) (h : Heap) (self : UJsonObject) :
    List SetterOp → Except Fault Heap
  | [] => pure h
  | op :: ops => do
    let h2 ← self.applySetter C h op
    self.applySetters C h2 ops

/-- The light objects over the Object-typed elements of an array, in array order. -/
def objectElements (ys : List FJsonValue) : List FLightJsonObject :=
  ys.filterMap (fun v =>
    match v with
    | FJsonValue.Object p => some (FLightJsonObject.mk p)
    | _ => none)

/-- The Number-typed elements of an array as floats, in array order. -/
def numberElements (C : CxxCast) (ys : List FJsonValue) : List Double :=
  ys.filterMap (fun v =>
    match v with
    | FJsonValue.Number d => some (C.toFloat d)
    | _ => none)

/-! ## Lemmas on the map and the heap -/

theorem TMap.Find_Add_same {β : Type} (m : List (FString × β)) (key : FString) (val : β) :
    TMap.Find (TMap.Add m key val) key = some val := by
  induction m with
  | nil => simp [TMap.Add, TMap.Find]
  | cons e m ih =>
    obtain ⟨k, v⟩ := e
    by_cases hk : k = key
    · simp [TMap.Add, TMap.Find, hk]
    · simp [TMap.Add, TMap.Find, hk, ih]

theorem TMap.Find_Add_other {β : Type} (m : List (FString × β)) (key key2 : FString)
    (val : β) (hne : key ≠ key2) :
    TMap.Find (TMap.Add m key val) key2 = TMap.Find m key2 := by
  induction m with
  | nil => simp [TMap.Add, TMap.Find, hne]
  | cons e m ih =>
    obtain ⟨k, v⟩ := e
    by_cases hk : k = key
    · subst hk
      simp [TMap.Add, TMap.Find, hne]
    · by_cases hk2 : k = key2
      · subst hk2
        simp [TMap.Add, TMap.Find, hk]
      · simp [TMap.Add, TMap.Find, hk, hk2, ih]

theorem FJsonObject.TryGetField_SetField (o : FJsonObject) (n : FString)
    (v : Option FJsonValue) : (o.SetField n v).TryGetField n = v := by
  unfold FJsonObject.TryGetField FJsonObject.SetField
  simp only [TMap.Find_Add_same]
  cases v <;> rfl

theorem Heap.owns_iff (h : Heap) (p : Option ObjAddr) :
    h.owns p = true ↔ ∃ a o, p = some a ∧ h.get a = some o := by
  cases p with
  | none => simp [Heap.owns]
  | some a =>
    simp only [Heap.owns, decide_eq_true_eq, Heap.get, Option.some.injEq, exists_and_left,
      exists_eq_left']
    constructor
    · intro hlt
      exact ⟨h.Objects[a], by simp [hlt]⟩
    · rintro ⟨o, ho⟩
      exact (List.getElem?_eq_some_iff.mp ho).1

theorem Heap.get_set_same (h : Heap) (a : ObjAddr) (o o2 : FJsonObject)
    (hg : h.get a = some o) : (h.set a o2).get a = some o2 := by
  have hlt : a < h.Objects.length := (List.getElem?_eq_some_iff.mp hg).1
  simp [Heap.get, Heap.set, hlt]

theorem Heap.get_set_other (h : Heap) (a b : ObjAddr) (o2 : FJsonObject) (hne : a ≠ b) :
    (h.set a o2).get b = h.get b := by
  simp [Heap.get, Heap.set, List.getElem?_set_ne hne]

theorem Heap.length_set (h : Heap) (a : ObjAddr) (o2 : FJsonObject) :
    (h.set a o2).Objects.length = h.Objects.length := by
  simp [Heap.set]

theorem Heap.get_MakeShared_new (h : Heap) (o : FJsonObject) :
    (h.MakeShared o).2.get (h.MakeShared o).1 = some o := by
  simp [Heap.get, Heap.MakeShared]

theorem Heap.get_MakeShared_old (h : Heap) (o : FJsonObject) (a : ObjAddr)
    (ha : a < h.Objects.length) : (h.MakeShared o).2.get a = h.get a := by
  simp [Heap.get, Heap.MakeShared, List.getElem?_append_left ha]

theorem Heap.deref_of_get (h : Heap) (a : ObjAddr) (o : FJsonObject)
    (hg : h.get a = some o) : h.deref (some a) = Except.ok o := by
  simp [Heap.deref, hg]

theorem Heap.update_of_get (h : Heap) (a : ObjAddr) (o : FJsonObject)
    (f : FJsonObject → FJsonObject) (hg : h.get a = some o) :
    h.update (some a) f = Except.ok (h.set a (f o)) := by
  simp [Heap.update, hg]

theorem roundHalfFromZero_intCast (i : Int) : roundHalfFromZero (i : ℚ) = i := by
  unfold roundHalfFromZero
  split
  · rw [Int.floor_eq_iff]
    constructor <;> linarith
  · rw [Int.ceil_eq_iff]
    constructor <;> linarith

theorem FJsonValue.TryGetNumber_int32_ofInt (L : CoreLib) (i : Int)
    (hlo : INT32_MIN ≤ i) (hhi : i ≤ INT32_MAX) :
    (FJsonValue.Number (Double.ofInt i)).TryGetNumber_int32 L = some i := by
  have h1 : ((INT32_MIN : Int) : ℚ) ≤ (i : ℚ) := by exact_mod_cast hlo
  have h2 : (i : ℚ) ≤ ((INT32_MAX : Int) : ℚ) := by exact_mod_cast hhi
  simp [FJsonValue.TryGetNumber_int32, FJsonValue.TryGetNumber, Double.ofInt, h1, h2,
    roundHalfFromZero_intCast]

theorem Heap.get_append_head (l r : List FJsonObject) (o : FJsonObject) :
    (Heap.mk (l ++ o :: r)).get l.length = some o := by
  unfold Heap.get
  rw [List.getElem?_append_right (le_refl _)]
  simp

theorem Heap.update_append_head (l r : List FJsonObject) (o : FJsonObject)
    (f : FJsonObject → FJsonObject) :
    (Heap.mk (l ++ o :: r)).update (some l.length) f
      = Except.ok (Heap.mk (l ++ f o :: r)) := by
  simp [Heap.update, Heap.get_append_head, Heap.set]

theorem List.foldl_Emplace_eq_map {α β : Type} (f : α → β) (l : List α) (init : List β) :
    l.foldl (fun Out x => TArray.Emplace Out (f x)) init = init ++ l.map f := by
  induction l generalizing init with
  | nil => simp
  | cons x l ih =>
    rw [List.foldl_cons, ih]
    simp [TArray.Emplace]

/-! ## Claims -/

/-- C1. `UJsonValue::CreateJsonValue(UObject*)` supports only `UJsonValue` and
`UJsonObject`: the result is absent for a null reference, is the argument itself for a
`UJsonValue`, is a non-absent value of type Object holding the argument's underlying
object for a `UJsonObject`, and is absent for an object of any other class. -/
theorem C1_CreateJsonValue_UObject :
    UJsonValue.CreateJsonValue_UObject none = none ∧
    (∀ v : UJsonValue,
      UJsonValue.CreateJsonValue_UObject (some (UObject.JsonValue v)) = some v) ∧
    (∀ o : UJsonObject, ∃ r : UJsonValue,
      UJsonValue.CreateJsonValue_UObject (some (UObject.JsonObject o)) = some r ∧
      r.GetType = Except.ok EJson.Object ∧
      r.GetRawValue.map FJsonValue.AsObject = some o.GetRawObject) ∧
    (∀ Name : FString,
      UJsonValue.CreateJsonValue_UObject (some (UObject.Other Name)) = none) := by
  refine ⟨rfl, fun v => rfl, fun o => ?_, fun Name => rfl⟩
  exact ⟨{ Value := some (FJsonValue.Object o.Object) }, rfl, rfl, rfl⟩

/-- C2. `UJsonValue::CreateFromRaw` and `UJsonObject::CreateFromRaw` return an absent
wrapper if and only if the raw pointer is null, and otherwise a wrapper whose
`GetRawValue` / `GetRawObject` is the raw pointer passed in. -/
theorem C2_CreateFromRaw (RawValue : Option FJsonValue) (RawObject : Option ObjAddr) :
    (UJsonValue.CreateFromRaw RawValue = none ↔ RawValue = none) ∧
    (∀ w : UJsonValue, UJsonValue.CreateFromRaw RawValue = some w →
      w.GetRawValue = RawValue) ∧
    (UJsonObject.CreateFromRaw RawObject = none ↔ RawObject = none) ∧
    (∀ w : UJsonObject, UJsonObject.CreateFromRaw RawObject = some w →
      w.GetRawObject = RawObject) := by
  refine ⟨?_, ?_, ?_, ?_⟩
  · cases RawValue <;> simp [UJsonValue.CreateFromRaw]
  · intro w hw
    cases RawValue with
    | none => simp [UJsonValue.CreateFromRaw] at hw
    | some v =>
      simp only [UJsonValue.CreateFromRaw, Option.some.injEq] at hw
      subst hw
      rfl
  · cases RawObject <;> simp [UJsonObject.CreateFromRaw]
  · intro w hw
    cases RawObject with
    | none => simp [UJsonObject.CreateFromRaw] at hw
    | some a =>
      simp only [UJsonObject.CreateFromRaw, Option.some.injEq] at hw
      subst hw
      rfl

/-- C3. Typed setters and getters round-trip per field: on a wrapper `o` of a live
object, after `SetStringField(n, s)` `GetFieldAsString(n)` returns `s`, after
`SetBooleanField(n, b)` `GetFieldAsBoolean(n)` returns `b`, and after
`SetIntegerField(n, i)` `GetFieldAsInteger(n)` returns `i` for every 32-bit signed
integer `i`. -/
theorem C3_typed_set_get_round_trip (L : CoreLib) (h : Heap) (o : UJsonObject)
    (n : FString) (ho : h.owns o.Object = true) :
    (∀ s : FString, ∃ h2 : Heap,
      o.SetStringField h n s = Except.ok h2 ∧
      o.GetFieldAsString L h2 n = Except.ok s) ∧
    (∀ b : Bool, ∃ h2 : Heap,
      o.SetBooleanField h n b = Except.ok h2 ∧
      o.GetFieldAsBoolean L h2 n = Except.ok b) ∧
    (∀ i : Int, INT32_MIN ≤ i → i ≤ INT32_MAX → ∃ h2 : Heap,
      o.SetIntegerField h n i = Except.ok h2 ∧
      o.GetFieldAsInteger L h2 n = Except.ok i) := by
  obtain ⟨a, obj, hp, hg⟩ := (Heap.owns_iff h o.Object).mp ho
  refine ⟨fun s => ?_, fun b => ?_, fun i hlo hhi => ?_⟩
  · refine ⟨h.set a (obj.SetStringField n s), ?_, ?_⟩
    · simp [UJsonObject.SetStringField, hp, Heap.update_of_get h a obj _ hg]
    · have hd := Heap.deref_of_get _ a _ (Heap.get_set_same h a obj (obj.SetStringField n s) hg)
      simp only [UJsonObject.GetFieldAsString, hp, hd, bind, Except.bind]
      simp [FJsonObject.SetStringField, FJsonObject.TryGetField_SetField,
        FJsonValue.TryGetString, pure, Except.pure]
  · refine ⟨h.set a (obj.SetBoolField n b), ?_, ?_⟩
    · simp [UJsonObject.SetBooleanField, hp, Heap.update_of_get h a obj _ hg]
    · have hd := Heap.deref_of_get _ a _ (Heap.get_set_same h a obj (obj.SetBoolField n b) hg)
      simp only [UJsonObject.GetFieldAsBoolean, hp, hd, bind, Except.bind]
      simp [FJsonObject.SetBoolField, FJsonObject.TryGetField_SetField,
        FJsonValue.TryGetBool, pure, Except.pure]
  · refine ⟨h.set a (obj.SetNumberField n (Double.ofInt i)), ?_, ?_⟩
    · simp [UJsonObject.SetIntegerField, hp, Heap.update_of_get h a obj _ hg]
    · have hd := Heap.deref_of_get _ a _
        (Heap.get_set_same h a obj (obj.SetNumberField n (Double.ofInt i)) hg)
      simp only [UJsonObject.GetFieldAsInteger, hp, hd, bind, Except.bind]
      simp [FJsonObject.SetNumberField, FJsonObject.TryGetField_SetField,
        FJsonValue.TryGetNumber_int32_ofInt L i hlo hhi, pure, Except.pure]

/-- Witness of C3 on a heap with one empty object. -/
theorem C3_typed_set_get_round_trip_witness :
    (Heap.mk [FJsonObject.empty]).owns (UJsonObject.mk (some 0)).Object = true ∧
    (∃ h2 : Heap,
      (UJsonObject.mk (some 0)).SetStringField (Heap.mk [FJsonObject.empty]) "name" "Bob"
        = Except.ok h2 ∧
      (UJsonObject.mk (some 0)).GetFieldAsString CoreLib.trivial h2 "name"
        = Except.ok "Bob") ∧
    (∃ h2 : Heap,
      (UJsonObject.mk (some 0)).SetBooleanField (Heap.mk [FJsonObject.empty]) "name" true
        = Except.ok h2 ∧
      (UJsonObject.mk (some 0)).GetFieldAsBoolean CoreLib.trivial h2 "name"
        = Except.ok true) ∧
    (∃ h2 : Heap,
      (UJsonObject.mk (some 0)).SetIntegerField (Heap.mk [FJsonObject.empty]) "name" (-42)
        = Except.ok h2 ∧
      (UJsonObject.mk (some 0)).GetFieldAsInteger CoreLib.trivial h2 "name"
        = Except.ok (-42)) :=
  have t := C3_typed_set_get_round_trip CoreLib.trivial (Heap.mk [FJsonObject.empty])
    (UJsonObject.mk (some 0)) "name" (by decide)
  ⟨by decide, t.1 "Bob", t.2.1 true, t.2.2 (-42) (by decide) (by decide)⟩

/-- C4. `ToJsonValue` converts an object to a value of type Object that wraps the same
underlying object: `o.ToJsonValue()` is non-absent and has type Object, and after
`p.SetField(n, o.ToJsonValue())` the call `p.GetFieldAsObject(n)` returns a non-absent
wrapper of `o`'s underlying object; `p.SetObjectField(n, o)` leaves the same heap and so
the same result. -/
theorem C4_ToJsonValue_wraps_same_object :
    (∀ o : UJsonObject, ∃ v : UJsonValue,
      o.ToJsonValue = some v ∧ v.GetType = Except.ok EJson.Object ∧
      v.GetRawValue.map FJsonValue.AsObject = some o.GetRawObject) ∧
    (∀ (h : Heap) (o p : UJsonObject) (n : FString),
      h.owns o.Object = true → h.owns p.Object = true →
      ∃ (h2 : Heap) (w : UJsonObject),
        p.SetField h n o.ToJsonValue = Except.ok h2 ∧
        p.GetFieldAsObject h2 n = Except.ok (some w) ∧
        w.GetRawObject = o.GetRawObject ∧
        p.SetObjectField h n (some o) = Except.ok h2) := by
  refine ⟨fun o => ⟨{ Value := some (FJsonValue.Object o.Object) }, rfl, rfl, rfl⟩, ?_⟩
  intro h o p n ho hp
  obtain ⟨a, objO, hoa, -⟩ := (Heap.owns_iff h o.Object).mp ho
  obtain ⟨b, objP, hpb, hgb⟩ := (Heap.owns_iff h p.Object).mp hp
  refine ⟨h.set b (objP.SetField n (some (FJsonValue.Object (some a)))), o, ?_, ?_, rfl, ?_⟩
  · simp [UJsonObject.SetField, UJsonObject.ToJsonValue, UJsonValue.CreateFromRaw,
      UJsonValue.GetRawValue, hoa, hpb, Heap.update_of_get h b objP _ hgb]
  · have hd := Heap.deref_of_get _ b _
      (Heap.get_set_same h b objP (objP.SetField n (some (FJsonValue.Object (some a)))) hgb)
    simp only [UJsonObject.GetFieldAsObject, hpb, hd, bind, Except.bind]
    cases o
    simp_all [FJsonObject.TryGetField_SetField, FJsonValue.Type, FJsonValue.AsObject,
      UJsonObject.CreateFromRaw, pure, Except.pure]
  · simp [UJsonObject.SetObjectField, FJsonObject.SetObjectField, hoa, hpb,
      Heap.update_of_get h b objP _ hgb]

/-- Witness of C4: a heap with two empty objects, `o` at address 1 set into `p` at
address 0. -/
theorem C4_ToJsonValue_wraps_same_object_witness :
    ∃ (h2 : Heap) (w : UJsonObject),
      (UJsonObject.mk (some 0)).SetField (Heap.mk [FJsonObject.empty, FJsonObject.empty])
        "child" (UJsonObject.mk (some 1)).ToJsonValue = Except.ok h2 ∧
      (UJsonObject.mk (some 0)).GetFieldAsObject h2 "child" = Except.ok (some w) ∧
      w.GetRawObject = (UJsonObject.mk (some 1)).GetRawObject ∧
      (UJsonObject.mk (some 0)).SetObjectField
        (Heap.mk [FJsonObject.empty, FJsonObject.empty]) "child"
        (some (UJsonObject.mk (some 1))) = Except.ok h2 :=
  C4_ToJsonValue_wraps_same_object.2 (Heap.mk [FJsonObject.empty, FJsonObject.empty])
    (UJsonObject.mk (some 1)) (UJsonObject.mk (some 0)) "child" (by decide) (by decide)

/-- C5, as stated, fails: on an object without a field `a`, `IsFieldNull("a")` is true
although `HasField("a")` is false. -/
theorem C5_IsFieldNull_missing_field_counterexample :
    (UJsonObject.mk (some 0)).IsFieldNull (Heap.mk [FJsonObject.empty]) "a"
      = Except.ok true ∧
    (UJsonObject.mk (some 0)).HasField (Heap.mk [FJsonObject.empty]) "a"
      = Except.ok false :=
  ⟨rfl, rfl⟩

/-- C5, amended. On a wrapper of a live object, `IsFieldNull(n)` is true if and only if
the object has no field `n` or that field's value is JSON Null. -/
theorem C5_IsFieldNull_iff (h : Heap) (o : UJsonObject) (n : FString)
    (ho : h.owns o.Object = true) :
    ∃ (obj : FJsonObject) (r : Bool),
      h.deref o.Object = Except.ok obj ∧ o.IsFieldNull h n = Except.ok r ∧
      (r = true ↔
        (obj.HasField n = false ∨
          ∃ v : FJsonValue, obj.TryGetField n = some v ∧ v.Type = EJson.Null)) := by
  obtain ⟨a, obj, hp, hg⟩ := (Heap.owns_iff h o.Object).mp ho
  have hd := Heap.deref_of_get h a obj hg
  cases hf : obj.TryGetField n with
  | none =>
    refine ⟨obj, true, by rw [hp, hd], ?_, ?_⟩
    · simp [UJsonObject.IsFieldNull, hp, hd, hf, bind, Except.bind, pure, Except.pure]
    · simp [FJsonObject.HasField, hf]
  | some v =>
    refine ⟨obj, v.IsNull, by rw [hp, hd], ?_, ?_⟩
    · simp [UJsonObject.IsFieldNull, hp, hd, hf, bind, Except.bind, pure, Except.pure]
    · cases v <;> simp [FJsonObject.HasField, hf, FJsonValue.IsNull, FJsonValue.Type]

/-- Witness of C5 (amended): an object whose field `a` holds JSON Null. -/
theorem C5_IsFieldNull_iff_witness :
    ∃ (obj : FJsonObject) (r : Bool),
      (Heap.mk [FJsonObject.mk [("a", some FJsonValue.Null)]]).deref
        (UJsonObject.mk (some 0)).Object = Except.ok obj ∧
      (UJsonObject.mk (some 0)).IsFieldNull
        (Heap.mk [FJsonObject.mk [("a", some FJsonValue.Null)]]) "a" = Except.ok r ∧
      (r = true ↔
        (obj.HasField "a" = false ∨
          ∃ v : FJsonValue, obj.TryGetField "a" = some v ∧ v.Type = EJson.Null)) :=
  C5_IsFieldNull_iff (Heap.mk [FJsonObject.mk [("a", some FJsonValue.Null)]])
    (UJsonObject.mk (some 0)) "a" (by decide)

/-- C6. Each flat engine-struct encoder produces a non-absent value of type Object whose
object has exactly the struct's component names as fields, each holding that component
as a Number: `{X, Y, Z}` for `FVector`, `{X, Y}` for `FVector2D`, `{Pitch, Yaw, Roll}`
for `FRotator`, `{R, G, B, A}` for `FLinearColor` and `FColor`, `{W, X, Y, Z}` for
`FQuat`, for every input value and in every heap. -/
theorem C6_flat_struct_encoders (h : Heap) :
    (∀ V : FVector, EncodesNumbers (UJsonValue.CreateJsonValue_FVector h V)
      [("X", V.X), ("Y", V.Y), ("Z", V.Z)]) ∧
    (∀ V : FVector2D, EncodesNumbers (UJsonValue.CreateJsonValue_FVector2D h V)
      [("X", V.X), ("Y", V.Y)]) ∧
    (∀ V : FRotator, EncodesNumbers (UJsonValue.CreateJsonValue_FRotator h V)
      [("Pitch", V.Pitch), ("Yaw", V.Yaw), ("Roll", V.Roll)]) ∧
    (∀ V : FLinearColor, EncodesNumbers (UJsonValue.CreateJsonValue_FLinearColor h V)
      [("R", V.R), ("G", V.G), ("B", V.B), ("A", V.A)]) ∧
    (∀ V : FColor, EncodesNumbers (UJsonValue.CreateJsonValue_FColor h V)
      [("R", Double.ofInt V.R), ("G", Double.ofInt V.G), ("B", Double.ofInt V.B),
       ("A", Double.ofInt V.A)]) ∧
    (∀ V : FQuat, EncodesNumbers (UJsonValue.CreateJsonValue_FQuat h V)
      [("W", V.W), ("X", V.X), ("Y", V.Y), ("Z", V.Z)]) := by
  refine ⟨fun V => ?_, fun V => ?_, fun V => ?_, fun V => ?_, fun V => ?_, fun V => ?_⟩ <;>
  · refine ⟨⟨some (FJsonValue.Object (some h.Objects.length))⟩, h.Objects.length, _, ?_,
      rfl, rfl, Heap.get_append_head h.Objects [] _⟩
    simp [UJsonValue.CreateJsonValue_FVector, UJsonValue.CreateJsonValue_FVector2D,
      UJsonValue.CreateJsonValue_FRotator, UJsonValue.CreateJsonValue_FLinearColor,
      UJsonValue.CreateJsonValue_FColor, UJsonValue.CreateJsonValue_FQuat,
      Heap.MakeShared, Heap.update_append_head, bind, Except.bind, pure, Except.pure,
      FJsonObject.SetNumberField, FJsonObject.SetField, FJsonObject.empty, TMap.Add,
      UJsonValue.CreateFromRaw]

/-- C8. `UJsonValue::SwitchValueType` branches on the wrapped value's type: a value of
type Array, Number, String, Object or Boolean selects the `EJsonType` enumerator of the
same name, every other type (Null and None) selects `EJsonType::Null`, so the Null
branch is taken exactly when the type is none of the five non-null kinds. -/
theorem C8_SwitchValueType :
    UJsonValue.SwitchValueType.branch EJson.Array = EJsonType.Array ∧
    UJsonValue.SwitchValueType.branch EJson.Number = EJsonType.Number ∧
    UJsonValue.SwitchValueType.branch EJson.String = EJsonType.String ∧
    UJsonValue.SwitchValueType.branch EJson.Object = EJsonType.Object ∧
    UJsonValue.SwitchValueType.branch EJson.Boolean = EJsonType.Boolean ∧
    UJsonValue.SwitchValueType.branch EJson.Null = EJsonType.Null ∧
    UJsonValue.SwitchValueType.branch EJson.None = EJsonType.Null ∧
    (∀ t : EJson, UJsonValue.SwitchValueType.branch t = EJsonType.Null ↔
      (t ≠ EJson.Array ∧ t ≠ EJson.Number ∧ t ≠ EJson.String ∧ t ≠ EJson.Object ∧
        t ≠ EJson.Boolean)) ∧
    (∀ (v : UJsonValue) (raw : FJsonValue), v.GetRawValue = some raw →
      v.SwitchValueType = Except.ok (UJsonValue.SwitchValueType.branch raw.Type)) := by
  refine ⟨rfl, rfl, rfl, rfl, rfl, rfl, rfl, ?_, ?_⟩
  · intro t
    cases t <;> simp [UJsonValue.SwitchValueType.branch]
  · intro v raw hv
    simp only [UJsonValue.GetRawValue] at hv
    simp [UJsonValue.SwitchValueType, UJsonValue.deref, hv, Except.map]

/-- C9. `UJsonObject::GetAllProperties` returns all the properties of the object: on a
wrapper of a live object and for every prior content of `OutValues`, the array holds
afterwards exactly one entry per field, in the order of the fields (its length is the
number of fields, the prior content is gone), and the entry of a field pairs the
field's name with the wrapper `CreateFromRaw` makes of that field's value, whose raw
value is that same value. -/
theorem C9_GetAllProperties (h : Heap) (o : UJsonObject)
    (OutValues : List FJsonObjectField) (ho : h.owns o.Object = true) :
    ∃ (obj : FJsonObject) (out : List FJsonObjectField),
      h.deref o.Object = Except.ok obj ∧
      o.GetAllProperties h OutValues = Except.ok out ∧
      out.length = obj.Values.length ∧
      (∀ (i : Nat) (k : FString) (v : Option FJsonValue),
        obj.Values[i]? = some (k, v) →
        ∃ e : FJsonObjectField, out[i]? = some e ∧ e.FieldName = k ∧
          e.FieldValue = UJsonValue.CreateFromRaw v) ∧
      (∀ (i : Nat) (k : FString) (v : FJsonValue),
        obj.Values[i]? = some (k, some v) →
        ∃ (e : FJsonObjectField) (w : UJsonValue), out[i]? = some e ∧ e.FieldName = k ∧
          e.FieldValue = some w ∧ w.GetRawValue = some v) := by
  obtain ⟨a, obj, hp, hg⟩ := (Heap.owns_iff h o.Object).mp ho
  have hd := Heap.deref_of_get h a obj hg
  have hout : o.GetAllProperties h OutValues = Except.ok
      (obj.Values.map (fun Value =>
        ({ FieldName := Value.1, FieldValue := UJsonValue.CreateFromRaw Value.2 } :
          FJsonObjectField))) := by
    simp only [UJsonObject.GetAllProperties, hp, hd, bind, Except.bind]
    rw [List.foldl_Emplace_eq_map]
    simp [TArray.Empty, pure, Except.pure]
  refine ⟨obj, _, by rw [hp, hd], hout, by simp, ?_, ?_⟩
  · intro i k v hi
    exact ⟨{ FieldName := k, FieldValue := UJsonValue.CreateFromRaw v },
      by simp [List.getElem?_map, hi], rfl, rfl⟩
  · intro i k v hi
    exact ⟨{ FieldName := k, FieldValue := UJsonValue.CreateFromRaw (some v) }, ⟨some v⟩,
      by simp [List.getElem?_map, hi], rfl, rfl, rfl⟩

/-- Witness of C9: an object with two fields and a non-empty prior `OutValues`. -/
theorem C9_GetAllProperties_witness :
    ∃ (obj : FJsonObject) (out : List FJsonObjectField),
      (Heap.mk [FJsonObject.mk [("a", some FJsonValue.Null),
        ("b", some (FJsonValue.Boolean true))]]).deref (UJsonObject.mk (some 0)).Object
        = Except.ok obj ∧
      (UJsonObject.mk (some 0)).GetAllProperties
        (Heap.mk [FJsonObject.mk [("a", some FJsonValue.Null),
          ("b", some (FJsonValue.Boolean true))]])
        [FJsonObjectField.mk "old" none] = Except.ok out ∧
      out.length = obj.Values.length ∧
      (∀ (i : Nat) (k : FString) (v : Option FJsonValue),
        obj.Values[i]? = some (k, v) →
        ∃ e : FJsonObjectField, out[i]? = some e ∧ e.FieldName = k ∧
          e.FieldValue = UJsonValue.CreateFromRaw v) ∧
      (∀ (i : Nat) (k : FString) (v : FJsonValue),
        obj.Values[i]? = some (k, some v) →
        ∃ (e : FJsonObjectField) (w : UJsonValue), out[i]? = some e ∧ e.FieldName = k ∧
          e.FieldValue = some w ∧ w.GetRawValue = some v) :=
  C9_GetAllProperties
    (Heap.mk [FJsonObject.mk [("a", some FJsonValue.Null),
      ("b", some (FJsonValue.Boolean true))]])
    (UJsonObject.mk (some 0)) [FJsonObjectField.mk "old" none] (by decide)

/-- C10. The light object API reaches the same object data: on a wrapper `o` of a live
object, `FromLightObject(o.GetFieldAsObjectWrapper(n))` and `o.GetFieldAsObject(n)` are
the same optional wrapper, so one is absent exactly when the other is and otherwise
both wrap the same underlying object; where Object values hold an object, they are
absent exactly when the field is missing or not of type Object; and `FromLightObject`
of an empty light object is absent. -/
theorem C10_light_object_same_data :
    (∀ (h : Heap) (o : UJsonObject) (n : FString), h.owns o.Object = true →
      ∃ (obj : FJsonObject) (l : FLightJsonObject) (r : Option UJsonObject),
        h.deref o.Object = Except.ok obj ∧
        o.GetFieldAsObjectWrapper h n = Except.ok l ∧
        o.GetFieldAsObject h n = Except.ok r ∧
        UJsonObject.FromLightObject l = r ∧
        (∀ w : UJsonObject, r = some w → w.GetRawObject = l.Object) ∧
        ((∀ v : FJsonValue, obj.TryGetField n = some v → v.Type = EJson.Object →
            v.AsObject ≠ none) →
          (r = none ↔
            (obj.HasField n = false ∨ obj.HasTypedField EJson.Object n = false)))) ∧
    UJsonObject.FromLightObject FLightJsonObject.default = none := by
  refine ⟨?_, rfl⟩
  intro h o n ho
  obtain ⟨a, obj, hp, hg⟩ := (Heap.owns_iff h o.Object).mp ho
  have hd := Heap.deref_of_get h a obj hg
  cases hf : obj.TryGetField n with
  | none =>
    refine ⟨obj, FLightJsonObject.default, none, by rw [hp, hd], ?_, ?_, rfl, ?_, ?_⟩
    · simp [UJsonObject.GetFieldAsObjectWrapper, hp, hd, hf, bind, Except.bind, pure,
        Except.pure]
    · simp [UJsonObject.GetFieldAsObject, hp, hd, hf, bind, Except.bind, pure,
        Except.pure]
    · intro w hw
      cases hw
    · intro _
      simp [FJsonObject.HasField, hf]
  | some v =>
    by_cases ht : v.Type = EJson.Object
    · refine ⟨obj, { Object := v.AsObject }, UJsonObject.CreateFromRaw v.AsObject,
        by rw [hp, hd], ?_, ?_, ?_, ?_, ?_⟩
      · simp [UJsonObject.GetFieldAsObjectWrapper, hp, hd, hf, ht, bind, Except.bind,
          pure, Except.pure]
      · simp [UJsonObject.GetFieldAsObject, hp, hd, hf, ht, bind, Except.bind, pure,
          Except.pure]
      · cases v.AsObject <;> rfl
      · intro w hw
        cases hv : v.AsObject with
        | none => simp [hv, UJsonObject.CreateFromRaw] at hw
        | some b =>
          simp only [hv, UJsonObject.CreateFromRaw, Option.some.injEq] at hw
          subst hw
          rfl
      · intro hwf
        have hne := hwf v hf ht
        cases hv : v.AsObject with
        | none => exact absurd hv hne
        | some b =>
          simp [UJsonObject.CreateFromRaw, FJsonObject.HasField,
            FJsonObject.HasTypedField, hf, ht]
    · refine ⟨obj, FLightJsonObject.default, none, by rw [hp, hd], ?_, ?_, rfl, ?_, ?_⟩
      · simp [UJsonObject.GetFieldAsObjectWrapper, hp, hd, hf, ht, bind, Except.bind,
          pure, Except.pure]
      · simp [UJsonObject.GetFieldAsObject, hp, hd, hf, ht, bind, Except.bind, pure,
          Except.pure]
      · intro w hw
        cases hw
      · intro _
        simp [FJsonObject.HasField, FJsonObject.HasTypedField, hf, ht]

/-- Witness of C10: field `child` of the object at address 0 holds the object at
address 1; the Object value holds an object, and both paths give a wrapper. -/
theorem C10_light_object_same_data_witness :
    ∃ (obj : FJsonObject) (l : FLightJsonObject) (r : Option UJsonObject),
      (Heap.mk [FJsonObject.mk [("child", some (FJsonValue.Object (some 1)))],
        FJsonObject.empty]).deref (UJsonObject.mk (some 0)).Object = Except.ok obj ∧
      (UJsonObject.mk (some 0)).GetFieldAsObjectWrapper
        (Heap.mk [FJsonObject.mk [("child", some (FJsonValue.Object (some 1)))],
          FJsonObject.empty]) "child" = Except.ok l ∧
      (UJsonObject.mk (some 0)).GetFieldAsObject
        (Heap.mk [FJsonObject.mk [("child", some (FJsonValue.Object (some 1)))],
          FJsonObject.empty]) "child" = Except.ok r ∧
      UJsonObject.FromLightObject l = r ∧
      (∀ w : UJsonObject, r = some w → w.GetRawObject = l.Object) ∧
      (∀ v : FJsonValue, obj.TryGetField "child" = some v → v.Type = EJson.Object →
        v.AsObject ≠ none) ∧
      (r = none ↔
        (obj.HasField "child" = false ∨
          obj.HasTypedField EJson.Object "child" = false)) := by
  obtain ⟨obj, l, r, hd, hl, hr, heq, hw, hiff⟩ :=
    C10_light_object_same_data.1
      (Heap.mk [FJsonObject.mk [("child", some (FJsonValue.Object (some 1)))],
        FJsonObject.empty])
      (UJsonObject.mk (some 0)) "child" (by decide)
  have hobj : obj = FJsonObject.mk [("child", some (FJsonValue.Object (some 1)))] := by
    have hd2 : Except.ok (FJsonObject.mk [("child", some (FJsonValue.Object (some 1)))])
        = (Except.ok obj : Except Fault FJsonObject) := hd
    injection hd2 with hd3
    exact hd3.symm
  have hwf : ∀ v : FJsonValue, obj.TryGetField "child" = some v →
      v.Type = EJson.Object → v.AsObject ≠ none := by
    subst hobj
    intro v hv _
    simp only [FJsonObject.TryGetField, TMap.Find, if_true, Option.some.injEq] at hv
    subst hv
    simp [FJsonValue.AsObject]
  exact ⟨obj, l, r, hd, hl, hr, heq, hw, hwf, hiff hwf⟩

/-! ## Lemmas on the array loops and the setters -/

theorem List.foldlM_some_filterMap {α γ : Type}
    (f : List γ → Option α → Except Fault (List γ)) (g : α → Option γ)
    (hf : ∀ (r : List γ) (v : α),
      f r (some v) = Except.ok (match g v with
        | some x => r ++ [x]
        | none => r))
    (ys : List α) (init : List γ) :
    (ys.map some).foldlM f init = Except.ok (init ++ ys.filterMap g) := by
  induction ys generalizing init with
  | nil => simp [pure, Except.pure]
  | cons v ys ih =>
    rw [List.map_cons, List.foldlM_cons, hf]
    cases hg : g v with
    | none => simp [bind, Except.bind, ih, List.filterMap_cons, hg]
    | some x => simp [bind, Except.bind, ih, List.filterMap_cons, hg]

theorem FLightJsonObject.lightFloatLoop_eq (C : CxxCast) (L : CoreLib) (ys : List FJsonValue)
    (init : List Double) :
    (ys.map some).foldlM
      (fun (Result : List Double) (NativeObject : Option FJsonValue) =>
        match NativeObject with
        | none => (Except.error Fault.nullDereference : Except Fault (List Double))
        | some v =>
          if v.Type = EJson.Number then
            pure (TArray.Emplace Result (C.toFloat (v.AsNumber L)))
          else pure Result)
      init = Except.ok (init ++ numberElements C ys) := by
  apply List.foldlM_some_filterMap
  intro r v
  cases v <;>
    simp [FJsonValue.Type, FJsonValue.AsNumber, FJsonValue.TryGetNumber, TArray.Emplace,
      pure, Except.pure]

theorem FLightJsonObject.objectLoop_eq (ys : List FJsonValue)
    (init : List FLightJsonObject) :
    (ys.map some).foldlM
      (fun (Result : List FLightJsonObject) (NativeObject : Option FJsonValue) =>
        match NativeObject with
        | none => (Except.error Fault.nullDereference : Except Fault (List FLightJsonObject))
        | some v =>
          if v.Type = EJson.Object then
            pure (TArray.Emplace Result (FLightJsonObject.mk v.AsObject))
          else pure Result)
      init = Except.ok (init ++ objectElements ys) := by
  apply List.foldlM_some_filterMap
  intro r v
  cases v <;>
    simp [FJsonValue.Type, FJsonValue.AsObject, TArray.Emplace, pure, Except.pure]

theorem UJsonObject.wrapperFloatLoop_eq (C : CxxCast) (L : CoreLib) (ys : List FJsonValue)
    (init : List Double) :
    (ys.map some).foldlM
      (fun (FieldValue : List Double) (RawValue : Option FJsonValue) =>
        match RawValue with
        | none => (Except.error Fault.nullDereference : Except Fault (List Double))
        | some v => pure (TArray.Emplace FieldValue (C.toFloat (v.AsNumber L))))
      init = Except.ok (init ++ ys.map (fun v => C.toFloat (v.AsNumber L))) := by
  have hmap : ys.map (fun v => C.toFloat (v.AsNumber L))
      = ys.filterMap (fun v => some (C.toFloat (v.AsNumber L))) := by
    induction ys with
    | nil => rfl
    | cons v ys ih => simp [List.filterMap_cons, ih]
  rw [hmap]
  apply List.foldlM_some_filterMap
  intro r v
  simp [TArray.Emplace, pure, Except.pure]

theorem numberElements_map_Number (C : CxxCast) (ds : List Double) :
    numberElements C (ds.map FJsonValue.Number) = ds.map C.toFloat := by
  induction ds with
  | nil => rfl
  | cons d ds ih =>
    simp only [numberElements, List.map_cons, List.filterMap_cons] at ih ⊢
    rw [ih]

theorem FJsonObject.HasTypedField_of_TryGetField (obj : FJsonObject) (n : FString)
    (v : FJsonValue) (hf : obj.TryGetField n = some v) (t : EJson) :
    obj.HasTypedField t n = decide (v.Type = t) := by
  simp [FJsonObject.HasTypedField, hf]

/-- C11, as stated, fails: over an object whose field `a` is the array `[null]`, the
light getter skips the element and returns the empty list, while the wrapper getter
converts it with `AsNumber` and returns a list of length one. -/
theorem C11_float_array_counterexample :
    (FLightJsonObject.mk (some 0)).GetFieldAsFloatArray CxxCast.exact CoreLib.trivial
      (Heap.mk [FJsonObject.mk [("a", some (FJsonValue.Array [some FJsonValue.Null]))]])
      "a" = Except.ok [] ∧
    (UJsonObject.mk (some 0)).GetFieldAsFloatArray CxxCast.exact CoreLib.trivial
      (Heap.mk [FJsonObject.mk [("a", some (FJsonValue.Array [some FJsonValue.Null]))]])
      "a" = Except.ok [Double.finite 0] :=
  ⟨rfl, rfl⟩

/-- C11, amended. Over the same live underlying object, the light getter and the wrapper
getter of float arrays return the same list when the field is missing or not an Array
(both empty) and when it is an Array whose elements are all Numbers (the numbers as
floats, in array order). -/
theorem C11_float_arrays_agree_on_numbers (C : CxxCast) (L : CoreLib) (h : Heap)
    (p : Option ObjAddr) (n : FString) (hp : h.owns p = true) :
    ∃ obj : FJsonObject, h.deref p = Except.ok obj ∧
      (obj.HasTypedField EJson.Array n = false →
        (FLightJsonObject.mk p).GetFieldAsFloatArray C L h n = Except.ok [] ∧
        (UJsonObject.mk p).GetFieldAsFloatArray C L h n = Except.ok []) ∧
      (∀ ds : List Double,
        obj.TryGetField n = some (FJsonValue.Array ((ds.map FJsonValue.Number).map some)) →
        (FLightJsonObject.mk p).GetFieldAsFloatArray C L h n
          = Except.ok (ds.map C.toFloat) ∧
        (UJsonObject.mk p).GetFieldAsFloatArray C L h n
          = Except.ok (ds.map C.toFloat)) := by
  obtain ⟨a, obj, hpa, hg⟩ := (Heap.owns_iff h p).mp hp
  subst hpa
  have hd := Heap.deref_of_get h a obj hg
  refine ⟨obj, hd, ?_, ?_⟩
  · intro ht
    constructor
    · simp [FLightJsonObject.GetFieldAsFloatArray, hd, ht, bind, Except.bind, pure,
        Except.pure]
    · cases hf : obj.TryGetField n with
      | none =>
        simp [UJsonObject.GetFieldAsFloatArray, hd, hf, bind, Except.bind, pure,
          Except.pure]
      | some v =>
        have hne : v.Type ≠ EJson.Array := by
          simpa [FJsonObject.HasTypedField_of_TryGetField obj n v hf] using ht
        simp [UJsonObject.GetFieldAsFloatArray, hd, hf, hne, bind, Except.bind, pure,
          Except.pure]
  · intro ds hf
    constructor
    · have ht : obj.HasTypedField EJson.Array n = true := by
        simp [FJsonObject.HasTypedField_of_TryGetField obj n _ hf, FJsonValue.Type]
      simp only [FLightJsonObject.GetFieldAsFloatArray, hd, ht, bind, Except.bind,
        FJsonObject.GetArrayField, hf, FJsonValue.AsArray, if_true]
      rw [FLightJsonObject.lightFloatLoop_eq, numberElements_map_Number]
      rfl
    · simp only [UJsonObject.GetFieldAsFloatArray, hd, hf, bind, Except.bind,
        FJsonValue.Type, FJsonValue.AsArray]
      rw [if_neg (by simp)]
      rw [UJsonObject.wrapperFloatLoop_eq]
      simp [List.map_map, FJsonValue.AsNumber, FJsonValue.TryGetNumber, Function.comp_def]

/-- Witness of C11 (amended): field `a` of the object at address 0 is the array
`[1, 2]`. -/
theorem C11_float_arrays_agree_on_numbers_witness :
    ∃ obj : FJsonObject,
      (Heap.mk [FJsonObject.mk [("a", some (FJsonValue.Array
        [some (FJsonValue.Number (Double.finite 1)),
         some (FJsonValue.Number (Double.finite 2))]))]]).deref (some 0)
        = Except.ok obj ∧
      (FLightJsonObject.mk (some 0)).GetFieldAsFloatArray CxxCast.exact CoreLib.trivial
        (Heap.mk [FJsonObject.mk [("a", some (FJsonValue.Array
          [some (FJsonValue.Number (Double.finite 1)),
           some (FJsonValue.Number (Double.finite 2))]))]]) "a"
        = Except.ok [Double.finite 1, Double.finite 2] ∧
      (UJsonObject.mk (some 0)).GetFieldAsFloatArray CxxCast.exact CoreLib.trivial
        (Heap.mk [FJsonObject.mk [("a", some (FJsonValue.Array
          [some (FJsonValue.Number (Double.finite 1)),
           some (FJsonValue.Number (Double.finite 2))]))]]) "a"
        = Except.ok [Double.finite 1, Double.finite 2] := by
  obtain ⟨obj, hd, -, hnum⟩ :=
    C11_float_arrays_agree_on_numbers CxxCast.exact CoreLib.trivial
      (Heap.mk [FJsonObject.mk [("a", some (FJsonValue.Array
        [some (FJsonValue.Number (Double.finite 1)),
         some (FJsonValue.Number (Double.finite 2))]))]]) (some 0) "a" (by decide)
  have hobj : obj = FJsonObject.mk [("a", some (FJsonValue.Array
      [some (FJsonValue.Number (Double.finite 1)),
       some (FJsonValue.Number (Double.finite 2))]))] := by
    have hd2 : Except.ok (FJsonObject.mk [("a", some (FJsonValue.Array
        [some (FJsonValue.Number (Double.finite 1)),
         some (FJsonValue.Number (Double.finite 2))]))])
        = (Except.ok obj : Except Fault FJsonObject) := hd
    injection hd2 with hd3
    exact hd3.symm
  subst hobj
  exact ⟨_, hd, hnum [Double.finite 1, Double.finite 2] rfl⟩

theorem Heap.update_of_owns (h : Heap) (p : Option ObjAddr)
    (f : FJsonObject → FJsonObject) (hp : h.owns p = true) :
    ∃ h2 : Heap, h.update p f = Except.ok h2 ∧
      h2.Objects.length = h.Objects.length := by
  obtain ⟨a, obj, hpa, hg⟩ := (Heap.owns_iff h p).mp hp
  subst hpa
  exact ⟨h.set a (f obj), Heap.update_of_get h a obj f hg, Heap.length_set h a (f obj)⟩

theorem Heap.owns_of_length_eq (h h2 : Heap) (p : Option ObjAddr)
    (hl : h2.Objects.length = h.Objects.length) (hp : h.owns p = true) :
    h2.owns p = true := by
  cases p with
  | none => simp [Heap.owns] at hp
  | some a => simpa [Heap.owns, hl] using hp

theorem UJsonObject.applySetter_keeps_length (C : CxxCast) (h : Heap) (o : UJsonObject)
    (op : SetterOp) (ho : h.owns o.Object = true) :
    ∃ h2 : Heap, o.applySetter C h op = Except.ok h2 ∧
      h2.Objects.length = h.Objects.length := by
  cases op with
  | SetStringField n v => exact Heap.update_of_owns h o.Object _ ho
  | SetIntegerField n v => exact Heap.update_of_owns h o.Object _ ho
  | SetInteger64Field n v => exact Heap.update_of_owns h o.Object _ ho
  | SetFloatField n v => exact Heap.update_of_owns h o.Object _ ho
  | SetBooleanField n v => exact Heap.update_of_owns h o.Object _ ho
  | SetObjectField n v =>
    cases v with
    | none => exact ⟨h, rfl, rfl⟩
    | some w => exact Heap.update_of_owns h o.Object _ ho
  | SetField n v =>
    cases v with
    | none => exact ⟨h, rfl, rfl⟩
    | some w => exact Heap.update_of_owns h o.Object _ ho
  | SetUObjectField n v =>
    cases v with
    | none => exact ⟨h, rfl, rfl⟩
    | some u =>
      cases u with
      | JsonValue w => exact Heap.update_of_owns h o.Object _ ho
      | JsonObject w => exact Heap.update_of_owns h o.Object _ ho
      | Other Name => exact ⟨h, rfl, rfl⟩
  | SetArrayField n v => exact Heap.update_of_owns h o.Object _ ho
  | SetNullField n => exact Heap.update_of_owns h o.Object _ ho

theorem UJsonObject.applySetters_keeps_owned (C : CxxCast) (o : UJsonObject)
    (ops : List SetterOp) (h : Heap) (ho : h.owns o.Object = true) :
    ∃ h2 : Heap, o.applySetters C h ops = Except.ok h2 ∧ h2.owns o.Object = true := by
  induction ops generalizing h with
  | nil => exact ⟨h, rfl, ho⟩
  | cons op ops ih =>
    obtain ⟨h1, hop, hl⟩ := UJsonObject.applySetter_keeps_length C h o op ho
    obtain ⟨h2, hops, ho2⟩ := ih h1 (Heap.owns_of_length_eq h h1 o.Object hl ho)
    refine ⟨h2, ?_, ho2⟩
    simp [UJsonObject.applySetters, hop, hops, bind, Except.bind]

/-- C12. Every non-absent `UJsonObject` holds a valid underlying object. A wrapper from
the default constructor or `CreateJsonObject` owns a fresh object; a non-absent wrapper
from `CreateFromRaw`, `ParseJson`, `FromLightObject` or `GetFieldAsObject` holds the
non-null pointer it was built from; and a wrapper of a live object stays one through any
sequence of setter calls, each of which returns without a fault, so that the
dereference of `Object` that every getter and setter starts with succeeds. -/
theorem C12_wrapper_holds_valid_object :
    (∀ h : Heap, (UJsonObject.ctor h).2.owns (UJsonObject.ctor h).1.Object = true) ∧
    (∀ h : Heap,
      (UJsonObject.CreateJsonObject h).2.owns (UJsonObject.CreateJsonObject h).1.Object
        = true) ∧
    (∀ (RawObject : Option ObjAddr) (w : UJsonObject),
      UJsonObject.CreateFromRaw RawObject = some w →
      w.Object ≠ none ∧ w.Object = RawObject) ∧
    (∀ (P : JsonParser) (h : Heap) (Json : FString) (w : UJsonObject),
      (UJsonObject.ParseJson P h Json).2.1 = some w →
      w.Object ≠ none ∧ w.Object = (UJsonObject.ParseJsonInternal P h Json).2.1) ∧
    (∀ (InObject : FLightJsonObject) (w : UJsonObject),
      UJsonObject.FromLightObject InObject = some w →
      w.Object ≠ none ∧ w.Object = InObject.Object) ∧
    (∀ (h : Heap) (o : UJsonObject) (n : FString) (w : UJsonObject),
      o.GetFieldAsObject h n = Except.ok (some w) → w.Object ≠ none) ∧
    (∀ (C : CxxCast) (h : Heap) (o : UJsonObject) (ops : List SetterOp),
      h.owns o.Object = true →
      ∃ h2 : Heap, o.applySetters C h ops = Except.ok h2 ∧
        h2.owns o.Object = true ∧ o.Object ≠ none ∧
        ∃ obj : FJsonObject, h2.deref o.Object = Except.ok obj) := by
  have hraw : ∀ (RawObject : Option ObjAddr) (w : UJsonObject),
      UJsonObject.CreateFromRaw RawObject = some w →
      w.Object ≠ none ∧ w.Object = RawObject := by
    intro RawObject w hw
    cases RawObject with
    | none => simp [UJsonObject.CreateFromRaw] at hw
    | some a =>
      simp only [UJsonObject.CreateFromRaw, Option.some.injEq] at hw
      subst hw
      simp
  refine ⟨?_, ?_, hraw, ?_, ?_, ?_, ?_⟩
  · intro h
    simp [UJsonObject.ctor, Heap.MakeShared, Heap.owns]
  · intro h
    simp [UJsonObject.CreateJsonObject, Heap.MakeShared, Heap.owns]
  · intro P h Json w hw
    exact hraw _ w hw
  · intro InObject w hw
    cases hI : InObject.Object with
    | none => simp [UJsonObject.FromLightObject, hI] at hw
    | some a =>
      simp only [UJsonObject.FromLightObject, hI, Option.some.injEq] at hw
      subst hw
      simp
  · intro h o n w hw
    cases hd : h.deref o.Object with
    | error e => simp [UJsonObject.GetFieldAsObject, hd, bind, Except.bind] at hw
    | ok obj =>
      cases hf : obj.TryGetField n with
      | none =>
        simp [UJsonObject.GetFieldAsObject, hd, hf, bind, Except.bind, pure,
          Except.pure] at hw
      | some v =>
        by_cases ht : v.Type = EJson.Object
        · simp [UJsonObject.GetFieldAsObject, hd, hf, ht, bind, Except.bind, pure,
            Except.pure] at hw
          exact (hraw _ w hw).1
        · simp [UJsonObject.GetFieldAsObject, hd, hf, ht, bind, Except.bind, pure,
            Except.pure] at hw
  · intro C h o ops ho
    obtain ⟨h2, hops, ho2⟩ := UJsonObject.applySetters_keeps_owned C o ops h ho
    obtain ⟨a, obj, hpa, hg⟩ := (Heap.owns_iff h2 o.Object).mp ho2
    refine ⟨h2, hops, ho2, by simp [hpa], obj, ?_⟩
    rw [hpa]
    exact Heap.deref_of_get h2 a obj hg

/-- Witness of C12: a wrapper from `CreateJsonObject` on the empty heap, then three
setter calls. -/
theorem C12_wrapper_holds_valid_object_witness :
    ∃ h2 : Heap,
      (UJsonObject.CreateJsonObject (Heap.mk [])).1.applySetters CxxCast.exact
        (UJsonObject.CreateJsonObject (Heap.mk [])).2
        [SetterOp.SetStringField "name" "Bob", SetterOp.SetNullField "name",
         SetterOp.SetObjectField "self"
           (some (UJsonObject.CreateJsonObject (Heap.mk [])).1)] = Except.ok h2 ∧
      h2.owns (UJsonObject.CreateJsonObject (Heap.mk [])).1.Object = true ∧
      (UJsonObject.CreateJsonObject (Heap.mk [])).1.Object ≠ none ∧
      ∃ obj : FJsonObject,
        h2.deref (UJsonObject.CreateJsonObject (Heap.mk [])).1.Object = Except.ok obj :=
  C12_wrapper_holds_valid_object.2.2.2.2.2.2 CxxCast.exact
    (UJsonObject.CreateJsonObject (Heap.mk [])).2
    (UJsonObject.CreateJsonObject (Heap.mk [])).1 _
    (C12_wrapper_holds_valid_object.2.1 (Heap.mk []))

/-- C13. Setters validate their argument and leave the object unchanged on an invalid
one: `SetField(n, null)`, `SetObjectField(n, null)`, and `SetUObjectField(n, v)` with
`v` null or of a class that is neither `UJsonObject` nor `UJsonValue`, return with the
heap as it was, so every field of `o` keeps its name and value. -/
theorem C13_setters_ignore_invalid_argument (h : Heap) (o : UJsonObject) (n : FString) :
    o.SetField h n none = Except.ok h ∧
    o.SetObjectField h n none = Except.ok h ∧
    o.SetUObjectField h n none = Except.ok h ∧
    (∀ Name : FString, o.SetUObjectField h n (some (UObject.Other Name)) = Except.ok h) ∧
    (∀ h2 : Heap,
      (o.SetField h n none = Except.ok h2 ∨ o.SetObjectField h n none = Except.ok h2 ∨
        o.SetUObjectField h n none = Except.ok h2 ∨
        ∃ Name : FString, o.SetUObjectField h n (some (UObject.Other Name)) = Except.ok h2) →
      h2.deref o.Object = h.deref o.Object) := by
  refine ⟨rfl, rfl, rfl, fun _ => rfl, ?_⟩
  intro h2 hcases
  have hh : h2 = h := by
    rcases hcases with hc | hc | hc | ⟨Name, hc⟩ <;>
    · have hc2 : (Except.ok h : Except Fault Heap) = Except.ok h2 := hc
      injection hc2 with hc3
      exact hc3.symm
  rw [hh]

/-- C14 fails on the code: with field `a` holding JSON Null, from which no number can be
read, `GetFieldAsInteger`, `GetFieldAsInteger64` and `GetFieldAsFloat` return their
uninitialised local instead of 0, whereas for the missing field `b` each returns 0. -/
theorem C14_numeric_getters_read_uninitialised_local :
    (UJsonObject.mk (some 0)).GetFieldAsInteger CoreLib.trivial
      (Heap.mk [FJsonObject.mk [("a", some FJsonValue.Null)]]) "a"
      = Except.error Fault.uninitializedRead ∧
    (UJsonObject.mk (some 0)).GetFieldAsInteger64 CoreLib.trivial
      (Heap.mk [FJsonObject.mk [("a", some FJsonValue.Null)]]) "a"
      = Except.error Fault.uninitializedRead ∧
    (UJsonObject.mk (some 0)).GetFieldAsFloat CxxCast.exact CoreLib.trivial
      (Heap.mk [FJsonObject.mk [("a", some FJsonValue.Null)]]) "a"
      = Except.error Fault.uninitializedRead ∧
    (UJsonObject.mk (some 0)).GetFieldAsInteger CoreLib.trivial
      (Heap.mk [FJsonObject.mk [("a", some FJsonValue.Null)]]) "b" = Except.ok 0 ∧
    (UJsonObject.mk (some 0)).GetFieldAsInteger64 CoreLib.trivial
      (Heap.mk [FJsonObject.mk [("a", some FJsonValue.Null)]]) "b" = Except.ok 0 ∧
    (UJsonObject.mk (some 0)).GetFieldAsFloat CxxCast.exact CoreLib.trivial
      (Heap.mk [FJsonObject.mk [("a", some FJsonValue.Null)]]) "b"
      = Except.ok (Double.finite 0) :=
  ⟨rfl, rfl, rfl, rfl, rfl, rfl⟩

/-- C15. `UJsonValue::JsonTypeToString` converts each of the seven `EJson` enumerators
to exactly its own name; distinct enumerators give distinct strings, and the fallback
`Undefined` is returned for none of them. -/
theorem C15_JsonTypeToString :
    UJsonValue.JsonTypeToString EJson.None = "None" ∧
    UJsonValue.JsonTypeToString EJson.Null = "Null" ∧
    UJsonValue.JsonTypeToString EJson.String = "String" ∧
    UJsonValue.JsonTypeToString EJson.Number = "Number" ∧
    UJsonValue.JsonTypeToString EJson.Boolean = "Boolean" ∧
    UJsonValue.JsonTypeToString EJson.Array = "Array" ∧
    UJsonValue.JsonTypeToString EJson.Object = "Object" ∧
    (∀ a b : EJson, UJsonValue.JsonTypeToString a = UJsonValue.JsonTypeToString b →
      a = b) ∧
    (∀ t : EJson, UJsonValue.JsonTypeToString t ≠ "Undefined") := by
  refine ⟨rfl, rfl, rfl, rfl, rfl, rfl, rfl, ?_, ?_⟩
  · intro a b hab
    cases a <;> cases b <;> first | rfl | (exact absurd hab (by decide))
  · intro t
    cases t <;> decide

/-- C16. The light array getters are order-preserving filters. On an invalid light object
both return the empty list. On a light object over a live object both return the empty
list when the field is missing or not an Array; when it is an Array (of non-null value
pointers) `GetFieldAsObjectArray` returns the light objects over exactly its
Object-typed elements and `GetFieldAsFloatArray` exactly its Number-typed elements as
floats, both in array order, so neither is longer than the array. -/
theorem C16_light_array_getters (C : CxxCast) (L : CoreLib) (h : Heap)
    (Lt : FLightJsonObject) (n : FString) :
    (Lt.Object = none →
      Lt.GetFieldAsObjectArray h n = Except.ok [] ∧
      Lt.GetFieldAsFloatArray C L h n = Except.ok []) ∧
    (∀ obj : FJsonObject, h.deref Lt.Object = Except.ok obj →
      ((obj.HasField n = false ∨ obj.HasTypedField EJson.Array n = false) →
        Lt.GetFieldAsObjectArray h n = Except.ok [] ∧
        Lt.GetFieldAsFloatArray C L h n = Except.ok []) ∧
      (∀ ys : List FJsonValue,
        obj.TryGetField n = some (FJsonValue.Array (ys.map some)) →
        Lt.GetFieldAsObjectArray h n = Except.ok (objectElements ys) ∧
        Lt.GetFieldAsFloatArray C L h n = Except.ok (numberElements C ys) ∧
        (objectElements ys).length ≤ ys.length ∧
        (numberElements C ys).length ≤ ys.length)) := by
  constructor
  · intro hnone
    simp [FLightJsonObject.GetFieldAsObjectArray, FLightJsonObject.GetFieldAsFloatArray,
      hnone, pure, Except.pure]
  · intro obj hd
    cases hL : Lt.Object with
    | none => simp [hL, Heap.deref] at hd
    | some a =>
      rw [hL] at hd
      constructor
      · intro hmiss
        have ht : obj.HasTypedField EJson.Array n = false := by
          rcases hmiss with hm | hm
          · cases hf : obj.TryGetField n with
            | none => simp [FJsonObject.HasTypedField, hf]
            | some v => simp [FJsonObject.HasField, hf] at hm
          · exact hm
        simp [FLightJsonObject.GetFieldAsObjectArray,
          FLightJsonObject.GetFieldAsFloatArray, hL, hd, ht, bind, Except.bind, pure,
          Except.pure]
      · intro ys hf
        have ht : obj.HasTypedField EJson.Array n = true := by
          simp [FJsonObject.HasTypedField_of_TryGetField obj n _ hf, FJsonValue.Type]
        refine ⟨?_, ?_, List.length_filterMap_le _ _, List.length_filterMap_le _ _⟩
        · simp only [FLightJsonObject.GetFieldAsObjectArray, hL, hd, ht, bind,
            Except.bind, FJsonObject.GetArrayField, hf, FJsonValue.AsArray, if_true]
          rw [FLightJsonObject.objectLoop_eq]
          rfl
        · simp only [FLightJsonObject.GetFieldAsFloatArray, hL, hd, ht, bind,
            Except.bind, FJsonObject.GetArrayField, hf, FJsonValue.AsArray, if_true]
          rw [FLightJsonObject.lightFloatLoop_eq]
          rfl

/-- Witness of C16: field `a` of the object at address 0 is the array
`[1, null, {object at address 1}, 2]`. -/
theorem C16_light_array_getters_witness :
    (FLightJsonObject.mk (some 0)).GetFieldAsObjectArray
      (Heap.mk [FJsonObject.mk [("a", some (FJsonValue.Array
        [some (FJsonValue.Number (Double.finite 1)), some FJsonValue.Null,
         some (FJsonValue.Object (some 1)),
         some (FJsonValue.Number (Double.finite 2))]))], FJsonObject.empty]) "a"
      = Except.ok [FLightJsonObject.mk (some 1)] ∧
    (FLightJsonObject.mk (some 0)).GetFieldAsFloatArray CxxCast.exact CoreLib.trivial
      (Heap.mk [FJsonObject.mk [("a", some (FJsonValue.Array
        [some (FJsonValue.Number (Double.finite 1)), some FJsonValue.Null,
         some (FJsonValue.Object (some 1)),
         some (FJsonValue.Number (Double.finite 2))]))], FJsonObject.empty]) "a"
      = Except.ok [Double.finite 1, Double.finite 2] :=
  have t := ((C16_light_array_getters CxxCast.exact CoreLib.trivial
    (Heap.mk [FJsonObject.mk [("a", some (FJsonValue.Array
      [some (FJsonValue.Number (Double.finite 1)), some FJsonValue.Null,
       some (FJsonValue.Object (some 1)),
       some (FJsonValue.Number (Double.finite 2))]))], FJsonObject.empty])
    (FLightJsonObject.mk (some 0)) "a").2 _ rfl).2
      [FJsonValue.Number (Double.finite 1), FJsonValue.Null,
       FJsonValue.Object (some 1), FJsonValue.Number (Double.finite 2)] rfl
  ⟨t.1, t.2.1⟩

end BlueprintJson
